import Mathlib

/-!
Verification development for the vyos-webui configuration core.

The definitions below are a shallow embedding of the Python sources:
  backend/app/core/config_parser.py    (ConfigNode, ConfigDiff)
  backend/app/core/vyos_syntax.py      (command parser, diff engine)
  backend/app/core/config_validator.py (rule lookup, validation walk)
  backend/app/core/config_rollback.py  (snapshot index, pruning, listing)
  backend/app/services/config_backup.py (backup manager, restore flow)

Modelling conventions:
* Python dicts are embedded as insertion-ordered association lists
  (`ChildMap`, `NMap`, `List (key, value)`); Python dict keys are unique and
  iteration order is insertion order, which these lists preserve.  Updating an
  existing key replaces the entry in place; inserting a new key appends.
* Scalar configuration values are strings (every value produced by the parser
  is a Python `str`).
* `None` is `Option.none`; fallible lookups return `Option`.
* Where Python-specific string behaviour matters (`str.strip`, `str.isspace`,
  `str.split`, regex matching at the concrete call sites), it is reproduced
  for the ASCII inputs the code handles; these helpers are named `py...`.
-/

set_option maxRecDepth 10000

namespace VyosWebui

/-! ### Python string helpers -/

/-- ASCII portion of Python `str.isspace` for a single character
(space, tab, newline, vertical tab, form feed, carriage return). -/
def pyIsSpace (c : Char) : Bool :=
  c = ' ' || c = '\t' || c = '\n' || c = '\x0b' || c = '\x0c' || c = '\r'

/-- Python `str.strip()` on the character list. -/
def pyStripList (l : List Char) : List Char :=
  ((l.dropWhile pyIsSpace).reverse.dropWhile pyIsSpace).reverse

/-- Python `str.strip()`. -/
def pyStrip (s : String) : String :=
  ⟨pyStripList s.data⟩

/-- Python `str.split()` with no argument: split on runs of whitespace,
discarding empty pieces.  A non-space character starts a token consisting of
the maximal following non-space run. -/
def pySplitWsList : List Char → List String
  | [] => []
  | c :: cs =>
    if pyIsSpace c then pySplitWsList cs
    else
      ⟨c :: cs.takeWhile (fun x => !pyIsSpace x)⟩ ::
        pySplitWsList (cs.dropWhile (fun x => !pyIsSpace x))
  termination_by l => l.length
  decreasing_by
    · simp
    · have := (List.dropWhile_sublist (l := cs) (p := fun x => !pyIsSpace x)).length_le
      simp only [List.length_cons]
      omega

/-- Python `str.split()`. -/
def pySplitWs (s : String) : List String :=
  pySplitWsList s.data

/-- ASCII lowercasing of one character (what `re.IGNORECASE` needs for the
keyword literals). -/
def pyLowerChar (c : Char) : Char :=
  if 'A' ≤ c && c ≤ 'Z' then Char.ofNat (c.toNat + 32) else c

/-- ASCII `str.lower()`. -/
def pyToLower (s : String) : String :=
  ⟨s.data.map pyLowerChar⟩

/-- Embeds `str.startswith(p)` via the character lists. -/
def pyStartsWith (s p : String) : Bool :=
  s.data.take p.data.length = p.data

/-- Python `str.split(sep)` for a one-character separator: splits at every
occurrence, keeping empty pieces (`cur` accumulates the current piece). -/
def pySplitCharAux (sep : Char) : List Char → List Char → List String
  | [], cur => [⟨cur⟩]
  | c :: cs, cur =>
    if c = sep then ⟨cur⟩ :: pySplitCharAux sep cs []
    else pySplitCharAux sep cs (cur ++ [c])

/-- Python `str.split(sep)` for a one-character separator. -/
def pySplitChar (sep : Char) (s : String) : List String :=
  pySplitCharAux sep s.data []

/-! ### `config_parser.py`: the configuration tree

`ConfigNode` mirrors the dataclass fields `path`, `value`, `children`,
`deleted`, `comment`.  The `children` dict is embedded as the
insertion-ordered association list `ChildMap`. -/

mutual
inductive ConfigNode where
  | mk (path : List String) (value : Option String) (children : ChildMap)
       (deleted : Bool) (comment : Option String)

inductive ChildMap where
  | nil
  | cons (name : String) (node : ConfigNode) (rest : ChildMap)
end

namespace ChildMap

/-- Dict indexing: `self.children[name]` / membership `name in self.children`. -/
def lookup : ChildMap → String → Option ConfigNode
  | nil, _ => none
  | cons n c r, k => if n = k then some c else lookup r k

/-- Embeds `name in self.children`. -/
def hasKey (cs : ChildMap) (k : String) : Bool :=
  (cs.lookup k).isSome

/-- Dict assignment `self.children[k] = c`: replace the entry in place when the
key exists, append otherwise (Python dicts keep the original position on
update and append new keys). -/
def setAt : ChildMap → String → ConfigNode → ChildMap
  | nil, k, c => cons k c nil
  | cons n c0 r, k, c => if n = k then cons n c r else cons n c0 (setAt r k c)

/-- Embeds `self.children.clear()` leaves the empty dict; emptiness test. -/
def isNil : ChildMap → Bool
  | nil => true
  | cons _ _ _ => false

/-- Keys in iteration order. -/
def keys : ChildMap → List String
  | nil => []
  | cons n _ r => n :: keys r

end ChildMap

namespace ConfigNode

def path : ConfigNode → List String
  | mk p _ _ _ _ => p

def value : ConfigNode → Option String
  | mk _ v _ _ _ => v

def children : ConfigNode → ChildMap
  | mk _ _ cs _ _ => cs

def deleted : ConfigNode → Bool
  | mk _ _ _ d _ => d

def comment : ConfigNode → Option String
  | mk _ _ _ _ c => c

/-- Embeds `ConfigNode()` with a given `path` (all other fields defaulted). -/
def new (p : List String) : ConfigNode :=
  mk p none .nil false none

/-- The empty root `ConfigNode()`. -/
def root : ConfigNode :=
  new []

/-- Embeds `set_value`: assigns the scalar and clears the children dict. -/
def setValue (v : String) : ConfigNode → ConfigNode
  | mk p _ _ d c => mk p (some v) .nil d c

/-- The child `add_child(name)` returns: the existing entry if present, else a
fresh `ConfigNode(path=self.path + [name])`. -/
def addChildGet (node : ConfigNode) (name : String) : ConfigNode :=
  match node.children.lookup name with
  | some c => c
  | none => new (node.path ++ [name])

/-- The effect of `add_child(name)` on the parent: idempotent insertion of an
empty child. -/
def addChild : ConfigNode → String → ConfigNode
  | mk p v cs d cm, name =>
    match cs.lookup name with
    | some _ => mk p v cs d cm
    | none => mk p v (cs.setAt name (new (p ++ [name]))) d cm

/-- Embeds `get_child(*path_parts)`: recursive lookup, `none` on absence at any
level. -/
def getChild : ConfigNode → List String → Option ConfigNode
  | node, [] => some node
  | node, first :: rest =>
    match node.children.lookup first with
    | none => none
    | some c => c.getChild rest

end ConfigNode

/-! `flatten`: depth-first export of leaf values keyed by dot-joined path;
a child with a value is emitted, a valueless child is recursed into only when
its children dict is non-empty.  The `deleted` flag is not consulted. -/

mutual
def flattenNode (pre : String) : ConfigNode → List (String × String)
  | .mk _ _ cs _ _ => flattenMap pre cs

def flattenMap (pre : String) : ChildMap → List (String × String)
  | .nil => []
  | .cons name c rest =>
    (let fullPath := if pre = "" then name else pre ++ name
     match c.value with
     | some v => [(fullPath, v)]
     | none =>
       if c.children.isNil then []
       else flattenNode (fullPath ++ ".") c) ++ flattenMap pre rest
end

/-- The loop body of `_flatten` for one `(name, child)` item, as a standalone
function (definitionally the head summand of `flattenMap`). -/
def flattenEntry (pre name : String) (c : ConfigNode) : List (String × String) :=
  let fullPath := if pre = "" then name else pre ++ name
  match c.value with
  | some v => [(fullPath, v)]
  | none =>
    if c.children.isNil then []
    else flattenNode (fullPath ++ ".") c

/-- Embeds `ConfigNode.flatten()`. -/
def ConfigNode.flatten (node : ConfigNode) : List (String × String) :=
  flattenNode "" node

/-- Embeds `result.get(key)` on the dict built by `flatten` (`result[k] = v` keeps the
last written value, so look up the last occurrence). -/
def flatGet (l : List (String × String)) (k : String) : Option String :=
  (l.reverse.find? (fun p => p.1 = k)).map (·.2)

/-! Nested-dictionary values for `to_dict` / `from_dict`.  A value is either a
scalar string or a nested map (again an insertion-ordered association list). -/

mutual
inductive NVal where
  | str (s : String)
  | dict (entries : NMap)

inductive NMap where
  | nil
  | cons (k : String) (v : NVal) (rest : NMap)
end

namespace NMap

def isNil : NMap → Bool
  | nil => true
  | cons _ _ _ => false

def keys : NMap → List String
  | nil => []
  | cons k _ r => k :: keys r

end NMap

/-! `to_dict`: skips tombstoned children; a valued child exports its scalar; a
valueless child is exported as a nested dict only when its children dict is
non-empty. -/

mutual
def toDictNode : ConfigNode → NMap
  | .mk _ _ cs _ _ => toDictMap cs

def toDictMap : ChildMap → NMap
  | .nil => .nil
  | .cons name c rest =>
    if c.deleted then toDictMap rest
    else
      match c.value with
      | some v => .cons name (.str v) (toDictMap rest)
      | none =>
        if c.children.isNil then toDictMap rest
        else .cons name (.dict (toDictNode c)) (toDictMap rest)
end

/-- Embeds `ConfigNode.to_dict()`. -/
def ConfigNode.toDict (node : ConfigNode) : NMap :=
  toDictNode node

/-! `from_dict`: `_populate` adds a child per entry, recursing into dict
values and `set_value`-ing scalars. -/

mutual
def populate : ConfigNode → NMap → ConfigNode
  | node, .nil => node
  | .mk p v cs d cm, .cons key val rest =>
    -- child = node.add_child(key), then populate / set_value mutates it
    let child :=
      match cs.lookup key with
      | some c => c
      | none => ConfigNode.new (p ++ [key])
    populate (.mk p v (cs.setAt key (populateInto child val)) d cm) rest

def populateInto : ConfigNode → NVal → ConfigNode
  | c, .str s => c.setValue s
  | c, .dict entries => populate c entries
end

/-- Embeds `ConfigNode.from_dict(data)`. -/
def ConfigNode.fromDict (data : NMap) : ConfigNode :=
  populate ConfigNode.root data

/-- Embeds `node.deleted = b`. -/
def ConfigNode.setDeleted (b : Bool) : ConfigNode → ConfigNode
  | .mk p v cs _ cm => .mk p v cs b cm

/-- Embeds `node.comment = c`. -/
def ConfigNode.setComment (c : Option String) : ConfigNode → ConfigNode
  | .mk p v cs d _ => .mk p v cs d c

/-! ### `vyos_syntax.py`: the command parser -/

/-- Parsed configuration command (`ConfigCommand` dataclass). -/
structure ConfigCommand where
  command_type : String
  path : List String
  value : Option String := none
  original : String := ""
deriving Repr, DecidableEq

/-- Embeds `_tokenize_path`'s character loop: split on whitespace, respecting
single- and double-quoted substrings; quote characters are consumed, a
matching quote closes the region, the other quote character inside a region
is kept literally. -/
def tokenizeAux : List Char → List Char → Bool → Char → List String
  | [], cur, _, _ => if cur.isEmpty then [] else [⟨cur⟩]
  | ch :: rest, cur, inQuotes, quoteChar =>
    if (ch = '"' || ch = '\'') && (!inQuotes || ch = quoteChar) then
      tokenizeAux rest cur (!inQuotes) ch
    else if pyIsSpace ch && !inQuotes then
      if cur.isEmpty then tokenizeAux rest [] inQuotes quoteChar
      else ⟨cur⟩ :: tokenizeAux rest [] inQuotes quoteChar
    else
      tokenizeAux rest (cur ++ [ch]) inQuotes quoteChar

/-- Embeds `_tokenize_path(path_str)` (initially not inside quotes; the initial
`quote_char` is never consulted before being set). -/
def tokenizePath (s : String) : List String :=
  tokenizeAux s.data [] false ' '

/-- The `(in_quotes, quote_char)` state of the `_tokenize_path` loop after
consuming the characters: a quote character toggles the flag and records
itself, every other character leaves the quote state alone. -/
def tokenizeQuoteState : List Char → Bool × Char → Bool × Char
  | [], st => st
  | c :: rest, (inQuotes, quoteChar) =>
    if (c = '"' || c = '\'') && (!inQuotes || c = quoteChar) then
      tokenizeQuoteState rest (!inQuotes, c)
    else
      tokenizeQuoteState rest (inQuotes, quoteChar)

/-- The regex `^\s*([^ ]+)\s+(.+)$` (`VALUE_PATTERN`) applied to a string with
no leading or trailing whitespace (the call site passes a stripped string).
The greedy `[^ ]+` with backtracking picks the largest split position `k`
within the maximal run of non-space characters such that a whitespace
character stands at `k` and a non-empty remainder follows the whitespace run;
group 1 is the prefix, group 2 the remainder after the run. -/
def valueMatch (s : String) : Option (String × String) :=
  let cs := s.data
  let maxRun := (cs.takeWhile (· ≠ ' ')).length
  match (List.range (maxRun + 1)).reverse.find? (fun k =>
      decide (1 ≤ k) && (match cs.get? k with
        | some c => pyIsSpace c
        | none => false) && !((cs.drop k).dropWhile pyIsSpace).isEmpty) with
  | some k => some (⟨cs.take k⟩, ⟨(cs.drop k).dropWhile pyIsSpace⟩)
  | none => none

/-- Python `path_str.rsplit(" ", 1)`: split at the last literal space, when
one exists. -/
def rsplitOnce (s : String) : Option (String × String) :=
  let cs := s.data
  match cs.reverse.findIdx? (· = ' ') with
  | none => none
  | some j =>
    let i := cs.length - 1 - j
    some (⟨cs.take i⟩, ⟨cs.drop (i + 1)⟩)

/-- Embeds `_split_path_and_value(path_str)`: try `VALUE_PATTERN` (first token is the
whole path, remainder is the value), else split on the last space, else the
whole string is the path with no value. -/
def splitPathAndValue (s : String) : List String × Option String :=
  match valueMatch s with
  | some (g1, g2) => ([g1], some g2)
  | none =>
    match rsplitOnce s with
    | some (before, after) => (pySplitWs before, some after)
    | none => (pySplitWs s, none)

/-- Matches `^\s*kw\s+(.+)$` case-insensitively against an already stripped
line and returns `group(1).strip()` (every caller strips the group). -/
def matchKeyword (kw : String) (line : String) : Option String :=
  let cs := line.data
  let n := kw.length
  if pyToLower ⟨cs.take n⟩ = kw then
    match cs.drop n with
    | [] => none
    | c :: rest =>
      if pyIsSpace c then
        let g := pyStripList (c :: rest)
        if g.isEmpty then none else some ⟨g⟩
      else none
  else none

/-- Matches `^\s*kw\s+(.+?)\s+(.+)$` case-insensitively against a stripped
line: group 1 is the first whitespace-delimited token after the keyword,
group 2 the remainder after the following whitespace run (both as the callers
see them after `.strip()`). -/
def matchKeywordTwo (kw : String) (line : String) : Option (String × String) :=
  let cs := line.data
  let n := kw.length
  if pyToLower ⟨cs.take n⟩ = kw then
    match cs.drop n with
    | [] => none
    | c :: rest =>
      if pyIsSpace c then
        let r := (c :: rest).dropWhile pyIsSpace
        let tok := r.takeWhile (fun x => !pyIsSpace x)
        let r2 := (r.dropWhile (fun x => !pyIsSpace x)).dropWhile pyIsSpace
        if tok.isEmpty || r2.isEmpty then none
        else some (⟨tok⟩, ⟨r2⟩)
      else none
    else none

/-- The separator `\s+to\s+(.+)$` of `RENAME_PATTERN` matched at a position:
a whitespace run, the literal `to` (case-insensitive), a whitespace run, and a
non-empty remainder, which is returned. -/
def matchToSep (l : List Char) : Option (List Char) :=
  if (l.takeWhile pyIsSpace).isEmpty then none
  else
    match l.dropWhile pyIsSpace with
    | t :: o :: rest =>
      if (t = 't' || t = 'T') && (o = 'o' || o = 'O') then
        if (rest.takeWhile pyIsSpace).isEmpty then none
        else
          let r2 := rest.dropWhile pyIsSpace
          if r2.isEmpty then none else some r2
      else none
    | _ => none

/-- The lazy group `(.+?)` of `RENAME_PATTERN`: the shortest non-empty prefix
followed by `\s+to\s+` and a non-empty remainder. -/
def renameSplitAux : List Char → List Char → Option (List Char × List Char)
  | _, [] => none
  | acc, c :: rest =>
    match matchToSep rest with
    | some g2 => some (acc ++ [c], g2)
    | none => renameSplitAux (acc ++ [c]) rest

/-- Matches `^\s*rename\s+(.+?)\s+to\s+(.+)$` case-insensitively against a
stripped line, returning the two stripped groups. -/
def matchRename (line : String) : Option (String × String) :=
  let cs := line.data
  if pyToLower ⟨cs.take 6⟩ = "rename" then
    match cs.drop 6 with
    | [] => none
    | c :: rest =>
      if pyIsSpace c then
        match renameSplitAux [] ((c :: rest).dropWhile pyIsSpace) with
        | some (g1, g2) => some (⟨pyStripList g1⟩, ⟨pyStripList g2⟩)
        | none => none
      else none
  else none

/-- Embeds `parse_line(line)`: strip, skip blanks and `#`/`!` comments, then try the
five statement shapes in priority order. -/
def parseLine (line : String) : Option ConfigCommand :=
  let l := pyStrip line
  if l = "" || pyStartsWith l "#" || pyStartsWith l "!" then none
  else
    match matchKeyword "set" l with
    | some pathStr =>
      let (p, v) := splitPathAndValue pathStr
      some { command_type := "set", path := p, value := v, original := l }
    | none =>
    match matchKeyword "delete" l with
    | some pathStr =>
      some { command_type := "delete", path := tokenizePath pathStr, original := l }
    | none =>
    match matchKeywordTwo "comment" l with
    | some (pathStr, text) =>
      some { command_type := "comment", path := tokenizePath pathStr,
             value := some text, original := l }
    | none =>
    match matchRename l with
    | some (oldPathStr, newName) =>
      some { command_type := "rename", path := tokenizePath oldPathStr,
             value := some newName, original := l }
    | none =>
    match matchKeyword "edit" l with
    | some pathStr =>
      some { command_type := "edit", path := tokenizePath pathStr, original := l }
    | none => none

/-- The final-segment action of `_apply_command`. -/
def applyFinal (node : ConfigNode) (ctype : String) (cval : Option String)
    (finalPart : String) : ConfigNode :=
  match node with
  | .mk p v cs d cm =>
    if ctype = "set" then
      let child :=
        match cs.lookup finalPart with
        | some c => c
        | none => ConfigNode.new (p ++ [finalPart])
      let child' :=
        match cval with
        | some v' => child.setValue v'
        | none => child
      .mk p v (cs.setAt finalPart child') d cm
    else if ctype = "delete" then
      match cs.lookup finalPart with
      | some c => .mk p v (cs.setAt finalPart (c.setDeleted true)) d cm
      | none => node
    else if ctype = "comment" then
      match cs.lookup finalPart with
      | some c => .mk p v (cs.setAt finalPart (c.setComment cval)) d cm
      | none => node
    else node

/-- Embeds `_apply_command`'s navigation: create/enter intermediate nodes for all but
the last segment via `add_child`, then act on the final segment; an empty
path only skips every `if command.path:` guard. -/
def applyAux (node : ConfigNode) (ctype : String) (cval : Option String) :
    List String → ConfigNode
  | [] => node
  | [finalPart] => applyFinal node ctype cval finalPart
  | part :: rest =>
    match node with
    | .mk p v cs d cm =>
      let child :=
        match cs.lookup part with
        | some c => c
        | none => ConfigNode.new (p ++ [part])
      .mk p v (cs.setAt part (applyAux child ctype cval rest)) d cm

/-- Embeds `_apply_command(command)` on the tree root. -/
def applyCommand (root : ConfigNode) (cmd : ConfigCommand) : ConfigNode :=
  applyAux root cmd.command_type cmd.value cmd.path

/-- Embeds `parse_config(config_text)`: reset to an empty tree, parse each line and
apply the successfully parsed commands in order. -/
def parseConfig (text : String) : ConfigNode :=
  (pySplitChar '\n' text).foldl
    (fun root line =>
      match parseLine line with
      | some cmd => applyCommand root cmd
      | none => root)
    ConfigNode.root

/-- Embeds `ConfigDiff`: the three result dicts viewed extensionally as partial maps
from dotted path to value(s) (Python dict equality is key-value equality). -/
structure ConfigDiff where
  added : String → Option String
  removed : String → Option String
  modified : String → Option (String × String)

/-- Embeds `calculate_diff(old_config, new_config)`: classify every dotted path of
either flattened tree as added, removed or modified; paths absent from both
maps fall through every branch. -/
def calculateDiff (oldConfig newConfig : ConfigNode) : ConfigDiff :=
  let oldFlat := flatGet oldConfig.flatten
  let newFlat := flatGet newConfig.flatten
  { added := fun k =>
      match oldFlat k, newFlat k with
      | none, some v => some v
      | _, _ => none
    removed := fun k =>
      match oldFlat k, newFlat k with
      | some v, none => some v
      | _, _ => none
    modified := fun k =>
      match oldFlat k, newFlat k with
      | some o, some n => if o ≠ n then some (o, n) else none
      | _, _ => none }

/-! ### Direct tree-mutation sequences

A caller holding a reference to a node reached by a path can invoke
`set_value` / `add_child` on it; a sequence of such calls is a list of
path-addressed operations on the tree. -/

/-- Apply a mutation to the node at an existing path (no-op when the path
does not exist, since no reference to a node there can be held). -/
def modifyAt : ConfigNode → List String → (ConfigNode → ConfigNode) → ConfigNode
  | t, [], f => f t
  | .mk pp v cs d cm, k :: rest, f =>
    match cs.lookup k with
    | none => .mk pp v cs d cm
    | some c => .mk pp v (cs.setAt k (modifyAt c rest f)) d cm

/-- One method call on the node addressed by `p`. -/
inductive TreeOp where
  | setValueAt (p : List String) (v : String)
  | addChildAt (p : List String) (name : String)

/-- Execute one operation. -/
def applyOp (t : ConfigNode) : TreeOp → ConfigNode
  | .setValueAt p v => modifyAt t p (ConfigNode.setValue v)
  | .addChildAt p name => modifyAt t p (fun n => n.addChild name)

/-- Execute a sequence of operations. -/
def applyOps (t : ConfigNode) (ops : List TreeOp) : ConfigNode :=
  ops.foldl applyOp t

/-! ### Erasing tombstones (for stating that `flatten` ignores them) -/

mutual
/-- The tree with every `deleted` flag forced to `false`; two trees are equal
up to tombstones exactly when their erasures are equal. -/
def clearDelNode : ConfigNode → ConfigNode
  | .mk p v cs _ cm => .mk p v (clearDelMap cs) false cm

def clearDelMap : ChildMap → ChildMap
  | .nil => .nil
  | .cons name c rest => .cons name (clearDelNode c) (clearDelMap rest)
end

/-! ### Support for the `from_dict` / `to_dict` round trip -/

namespace NMap

/-- Embeds `k in data` for the nested map. -/
def hasKey : NMap → String → Bool
  | nil, _ => false
  | cons k _ r, q => k = q || hasKey r q

/-- Concatenation of nested maps. -/
def append : NMap → NMap → NMap
  | nil, m => m
  | cons k v r, m => cons k v (append r m)

end NMap

/-- Concatenation of child maps. -/
def ChildMap.append : ChildMap → ChildMap → ChildMap
  | .nil, m => m
  | .cons n c r, m => .cons n c (ChildMap.append r m)

mutual
/-- Every nested map inside the value is non-empty. -/
def goodVal : NVal → Bool
  | .str _ => true
  | .dict entries => !entries.isNil && goodMap entries

/-- Every nested map inside the map is non-empty. -/
def goodMap : NMap → Bool
  | .nil => true
  | .cons _ v rest => goodVal v && goodMap rest
end

mutual
/-- Keys are distinct at every nesting level (automatic for a Python dict). -/
def nodupVal : NVal → Bool
  | .str _ => true
  | .dict m => nodupMap m

def nodupMap : NMap → Bool
  | .nil => true
  | .cons k v rest => !(rest.hasKey k) && nodupVal v && nodupMap rest
end

mutual
/-- The children `_populate` grows onto a node with path `p` from fresh keys:
one child per entry, scalars via `set_value`, dicts populated recursively. -/
def renderMap (p : List String) : NMap → ChildMap
  | .nil => .nil
  | .cons k val rest => .cons k (renderVal (p ++ [k]) val) (renderMap p rest)

/-- The node `_populate`/`set_value` produces for a fresh key with path `q`. -/
def renderVal (q : List String) : NVal → ConfigNode
  | .str s => (ConfigNode.new q).setValue s
  | .dict entries => populate (ConfigNode.new q) entries
end

/-- What one `(name, child)` item contributes to `to_dict`
(definitionally the head behaviour of `toDictMap`). -/
def childContrib (c : ConfigNode) : Option NVal :=
  if c.deleted then none
  else
    match c.value with
    | some v => some (.str v)
    | none => if c.children.isNil then none else some (.dict (toDictNode c))

/-! ### `config_validator.py`: rule lookup and the validation walk

The embedding is generic in the rule payload `R` (the fields of
`ValidationRule`) and in `_validate_value` (`checkValue`), neither of which
the lookup logic inspects; the rule set is the insertion-ordered association
list the `self.rules` dict is. -/

/-- Embeds `ValidationError` dataclass. -/
structure ValidationError where
  path : String
  message : String
  error_type : String
deriving Repr, DecidableEq

/-- Dict lookup on an association list with unique keys. -/
def lookupAL {α : Type} (l : List (String × α)) (k : String) : Option α :=
  (l.find? (fun p => p.1 = k)).map (·.2)

/-- The `zip` loop of `_path_matches`: `*` matches any single segment, other
segments must be equal. -/
def pathMatchesLoop : List (String × String) → Bool
  | [] => true
  | (patternPart, pathPart) :: rest =>
    if patternPart = "*" then pathMatchesLoop rest
    else if patternPart ≠ pathPart then false
    else pathMatchesLoop rest

/-- Embeds `_path_matches(pattern, path)`: split both on `.`, require equal segment
counts, then the zip loop. -/
def pathMatches (pat pathStr : String) : Bool :=
  let patternParts := pySplitChar '.' pat
  let pathParts := pySplitChar '.' pathStr
  if patternParts.length ≠ pathParts.length then false
  else pathMatchesLoop (patternParts.zip pathParts)

/-- The wildcard loop of `_find_matching_rule`: first rule in iteration
(= insertion) order whose pattern matches. -/
def findRuleLoop {R : Type} (pathStr : String) : List (String × R) → Option R
  | [] => none
  | (rulePath, rule) :: rest =>
    if pathMatches rulePath pathStr then some rule else findRuleLoop pathStr rest

/-- Embeds `_find_matching_rule(path)`: exact dict hit first, then the wildcard
loop. -/
def findMatchingRule {R : Type} (rules : List (String × R)) (pathStr : String) :
    Option R :=
  match lookupAL rules pathStr with
  | some r => some r
  | none => findRuleLoop pathStr rules

/-- Python `str.rstrip(chars)` for a single strip character. -/
def pyRstrip (c : Char) (s : String) : String :=
  ⟨(s.data.reverse.dropWhile (· = c)).reverse⟩

mutual
/-- Embeds `_validate_node`: a valued node is checked against the first matching
rule (none matching means no errors for it); children are walked in order,
skipping tombstoned ones, with `name + "."` appended to the prefix. -/
def validateNode {R : Type} (rules : List (String × R))
    (checkValue : String → String → R → List ValidationError) (pre : String) :
    ConfigNode → List ValidationError
  | .mk _ v cs _ _ =>
    (match v with
     | some s =>
       let nodePath := pyRstrip '.' pre
       match findMatchingRule rules nodePath with
       | some rule => checkValue nodePath s rule
       | none => []
     | none => []) ++ validateMap rules checkValue pre cs

def validateMap {R : Type} (rules : List (String × R))
    (checkValue : String → String → R → List ValidationError) (pre : String) :
    ChildMap → List ValidationError
  | .nil => []
  | .cons name c rest =>
    (if c.deleted then []
     else validateNode rules checkValue (pre ++ name ++ ".") c) ++
      validateMap rules checkValue pre rest
end

/-- Embeds `validate(config)`. -/
def validate {R : Type} (rules : List (String × R))
    (checkValue : String → String → R → List ValidationError)
    (config : ConfigNode) : List ValidationError :=
  validateNode rules checkValue "" config

mutual
/-- The `(node_path, value)` pairs the validation walk visits, in walk
order. -/
def valuedPathsNode (pre : String) : ConfigNode → List (String × String)
  | .mk _ v cs _ _ =>
    (match v with
     | some s => [(pyRstrip '.' pre, s)]
     | none => []) ++ valuedPathsMap pre cs

def valuedPathsMap (pre : String) : ChildMap → List (String × String)
  | .nil => []
  | .cons name c rest =>
    (if c.deleted then [] else valuedPathsNode (pre ++ name ++ ".") c) ++
      valuedPathsMap pre rest
end

/-- The paths the validation walk checks. -/
def valuedPaths (config : ConfigNode) : List (String × String) :=
  valuedPathsNode "" config

/-! ### `config_rollback.py`: the snapshot index

The manager's durable side (`_save_snapshot`, `_save_index`, `_load_index`)
writes through to file storage that only mirrors the in-memory
`self.snapshots` index driving `list_snapshots`; a freshly constructed
manager with no index file starts from the empty index.  The snapshot id
(`_generate_snapshot_id`) and the `datetime.utcnow()` timestamp are inputs of
the embedding; timestamps are naturals. -/

/-- Embeds `ConfigSnapshot` dataclass of `config_rollback.py`. -/
structure Snapshot where
  id : String
  timestamp : Nat
  description : Option String := none
  config_hash : String := ""
  config_data : NMap := .nil

/-- Sort key order of `sort(key=timestamp, reverse=True)`: newer (or equal)
first. -/
def snapGE (a b : Snapshot) : Prop :=
  b.timestamp ≤ a.timestamp

instance : DecidableRel snapGE := fun a b => Nat.decLe _ _

instance : IsTotal Snapshot snapGE :=
  ⟨fun a b => Nat.le_total b.timestamp a.timestamp⟩

instance : IsTrans Snapshot snapGE :=
  ⟨fun _ _ _ h1 h2 => Nat.le_trans h2 h1⟩

/-- Strictly newer first (the order `sortSnapshotsDesc` yields under distinct
timestamps). -/
def snapGT (a b : Snapshot) : Prop :=
  b.timestamp < a.timestamp

instance : IsAntisymm Snapshot snapGT :=
  ⟨fun _ _ h1 h2 => absurd (Nat.lt_trans h1 h2) (Nat.lt_irrefl _)⟩

/-- Embeds `sorted(..., key=lambda s: s.timestamp, reverse=True)` (a stable sort, as
Python's is). -/
def sortSnapshotsDesc (l : List Snapshot) : List Snapshot :=
  l.insertionSort snapGE

/-- Embeds `_prune_old_snapshots`: nothing to do while within the limit, else sort
newest-first and keep the first `max_snapshots`. -/
def pruneOldSnapshots (maxSnapshots : Nat) (snaps : List Snapshot) : List Snapshot :=
  if snaps.length ≤ maxSnapshots then snaps
  else (sortSnapshotsDesc snaps).take maxSnapshots

/-- The snapshot record `create_snapshot` builds (`hashFn` stands for the
SHA-256 content digest of the canonical JSON dump). -/
def mkSnapshot (hashFn : NMap → String) (config : ConfigNode)
    (description : Option String) (snapshotId : String) (timestamp : Nat) :
    Snapshot :=
  let configData := config.toDict
  { id := snapshotId, timestamp := timestamp, description := description,
    config_hash := hashFn configData, config_data := configData }

/-- Embeds `create_snapshot`: build the record, append to the index, prune. -/
def createSnapshot (hashFn : NMap → String) (maxSnapshots : Nat)
    (snaps : List Snapshot) (config : ConfigNode) (description : Option String)
    (snapshotId : String) (timestamp : Nat) : Snapshot × List Snapshot :=
  let snapshot := mkSnapshot hashFn config description snapshotId timestamp
  (snapshot, pruneOldSnapshots maxSnapshots (snaps ++ [snapshot]))

/-- Embeds `list_snapshots(limit)`: metadata sorted newest-first; the limit slice is
applied only when `limit` is truthy (`None` and `0` are not). -/
def listSnapshots (snaps : List Snapshot) (limit : Option Nat) : List Snapshot :=
  let sorted := sortSnapshotsDesc snaps
  match limit with
  | some n => if n ≠ 0 then sorted.take n else sorted
  | none => sorted

/-- Inputs of one `create_snapshot` call. -/
structure CreateReq where
  config : ConfigNode
  description : Option String
  id : String
  timestamp : Nat

/-- A sequence of `create_snapshot` calls on a freshly constructed manager
(empty index). -/
def runCreates (hashFn : NMap → String) (maxSnapshots : Nat)
    (reqs : List CreateReq) : List Snapshot :=
  reqs.foldl
    (fun st r => (createSnapshot hashFn maxSnapshots st r.config r.description r.id r.timestamp).2)
    []

/-! ### `config_backup.py`: backup manager and restore flow -/

/-- A one-character string holding a single quote (U+0027), used to build the
command strings of `config_backup.py` verbatim. -/
def sq : String :=
  ⟨['\'']⟩

/-- Python `"\n".join(...)`. -/
def joinLines : List String → String
  | [] => ""
  | [s] => s
  | s :: rest => s ++ "\n" ++ joinLines rest

/-- Lookup in a string-keyed association list (a Python dict). -/
def alGet (l : List (String × String)) (k : String) : Option String :=
  (l.find? (fun p => p.1 = k)).map (·.2)

/-- Dict assignment on a string-keyed association list. -/
def alSet : List (String × String) → String → String → List (String × String)
  | [], k, v => [(k, v)]
  | (k0, v0) :: rest, k, v =>
    if k0 = k then (k0, v) :: rest else (k0, v0) :: alSet rest k v

/-- Python `line.split(":", 1)`: the part before the first separator and,
when the separator occurs, the part after it. -/
def splitOnceChar (sep : Char) (s : String) : String × Option String :=
  go s.data []
where
  go : List Char → List Char → String × Option String
    | [], acc => (⟨acc.reverse⟩, none)
    | c :: rest, acc =>
      if c = sep then (⟨acc.reverse⟩, some ⟨rest⟩)
      else go rest (c :: acc)

/-- Embeds `execute(...)` result fields used by the backup manager. -/
structure ExecResult where
  stdout : String
  stderr : String := ""
  exit_code : Int := 0
deriving Repr, DecidableEq

/-- Modelled from the spec: the managed device behind the `execute`
capability of section 6, with the configure/set/commit/discard transaction
semantics of sections 4.5 and 7.  The repository's own executor
(`vyos_command.py` / `vyos_ssh.py`) is SSH transport only; the device
semantics it talks to are not in the repository.  `applyOk` is the device's
verdict on each configuration-mode command; `files` is the device
filesystem the heredoc writes and `cat` reads touch; `versionText` is what
`show version` prints. -/
structure Device where
  committed : List String
  pending : List String
  inConfig : Bool
  files : List (String × String)
  applyOk : String → Bool
  versionText : String := ""

/-- Embeds `show configuration commands` wrapped command. -/
def showConfigCmd : String :=
  "/opt/vyatta/bin/vyatta-op-cmd-wrapper show configuration commands"

/-- Embeds `show version` wrapped command. -/
def showVersionCmd : String :=
  "/opt/vyatta/bin/vyatta-op-cmd-wrapper show version"

/-- Prefix of the heredoc file write `cat << 'EOF' > path`. -/
def hdEOFPrefix : String :=
  "cat << " ++ sq ++ "EOF" ++ sq ++ " > "

/-- Prefix of the metadata heredoc write `cat << 'META_EOF' > path`. -/
def hdMETAPrefix : String :=
  "cat << " ++ sq ++ "META_EOF" ++ sq ++ " > "

/-- Interpret a heredoc write: first line is the target path, the final
`EOF`/`META_EOF` line is dropped, the middle is the content. -/
def heredocWrite (dev : Device) (afterPrefix : String) : Device :=
  match pySplitChar '\n' afterPrefix with
  | [] => dev
  | pathLine :: rest =>
    { dev with files := alSet dev.files pathLine (joinLines rest.dropLast) }

/-- Modelled from the spec: one `execute(command)` round trip against the
device (section 6).  Operational-mode reads leave the configuration state
untouched; `configure` opens a session whose candidate starts from the
running config; `set` appends to the candidate when the device accepts it
and fails with exit code 1 otherwise; `commit` promotes the candidate;
`discard` resets it; file reads and heredoc writes touch only `files`. -/
def devExec (dev : Device) (cmd : String) : ExecResult × Device :=
  if cmd = "configure" then
    ({ stdout := "" }, { dev with inConfig := true, pending := dev.committed })
  else if cmd = "commit" then
    ({ stdout := "" }, { dev with committed := dev.pending })
  else if cmd = "discard" then
    ({ stdout := "" }, { dev with pending := dev.committed })
  else if cmd = "exit" then
    ({ stdout := "" }, { dev with inConfig := false })
  else if cmd = "save" then
    ({ stdout := "" }, dev)
  else if pyStartsWith cmd "set " then
    if dev.applyOk cmd then
      ({ stdout := "" }, { dev with pending := dev.pending ++ [⟨cmd.data.drop 4⟩] })
    else
      ({ stdout := "", exit_code := 1 }, dev)
  else if cmd = showConfigCmd then
    ({ stdout := joinLines dev.committed }, dev)
  else if cmd = showVersionCmd then
    ({ stdout := dev.versionText }, dev)
  else if pyStartsWith cmd hdEOFPrefix then
    ({ stdout := "" }, heredocWrite dev ⟨cmd.data.drop hdEOFPrefix.length⟩)
  else if pyStartsWith cmd hdMETAPrefix then
    ({ stdout := "" }, heredocWrite dev ⟨cmd.data.drop hdMETAPrefix.length⟩)
  else if pyStartsWith cmd "cat " then
    ({ stdout := (alGet dev.files ⟨cmd.data.drop 4⟩).getD "" }, dev)
  else if pyStartsWith cmd "wc -c " then
    let p : String := ⟨cmd.data.drop 6⟩
    ({ stdout := toString ((alGet dev.files p).getD "").length ++ " " ++ p }, dev)
  else
    ({ stdout := "" }, dev)

/-- Embeds `BackupFormat` enum. -/
inductive BackupFormat where
  | json
  | yaml
  | xml
  | vyos
  | tar
deriving Repr, DecidableEq

/-- The `str` value of the enum member. -/
def BackupFormat.value : BackupFormat → String
  | .json => "json"
  | .yaml => "yaml"
  | .xml => "xml"
  | .vyos => "vyos"
  | .tar => "tar"

/-- Embeds `BackupStatus` enum. -/
inductive BackupStatus where
  | pending
  | in_progress
  | completed
  | failed
deriving Repr, DecidableEq

/-- Embeds `ConfigSnapshot` dataclass of `config_backup.py`. -/
structure BSnapshot where
  id : String
  name : String
  description : String
  timestamp : Nat
  format : BackupFormat
  size : Nat := 0
  checksum : String := ""
  status : BackupStatus := .completed
  version_info : List (String × String) := []

/-- Embeds `int(...)` on a non-negative decimal token. -/
def pyParseNat (s : String) : Option Nat :=
  if s.data.isEmpty || s.data.any (fun c => !(decide ('0' ≤ c) && decide (c ≤ '9'))) then
    none
  else
    some (s.data.foldl (fun acc c => acc * 10 + (c.toNat - 48)) 0)

/-- Embeds `key.strip().lower().replace(" ", "_")`. -/
def normalizeVersionKey (k : String) : String :=
  ⟨(pyStrip k).data.map pyLowerChar |>.map (fun c => if c = ' ' then '_' else c)⟩

/-- Embeds `_get_version_info`: run `show version` and fold `key: value` lines into
a dict. -/
def getVersionInfo (dev : Device) : List (String × String) × Device :=
  let r := (devExec dev showVersionCmd).1
  let dev1 := (devExec dev showVersionCmd).2
  let info :=
    if r.stdout = "" then []
    else
      (pySplitChar '\n' r.stdout).foldl
        (fun acc line =>
          if line.data.contains ':' then
            match splitOnceChar ':' line with
            | (key, some val) => alSet acc (normalizeVersionKey key) (pyStrip val)
            | (_, none) => acc
          else acc)
        []
  (info, dev1)

/-- The stripped non-comment lines of a configuration text (the filter both
JSON/YAML/XML conversions apply). -/
def activeStrippedLines (config : String) : List String :=
  (pySplitChar '\n' config).filterMap (fun line =>
    if pyStrip line ≠ "" && !pyStartsWith (pyStrip line) "#" then some (pyStrip line)
    else none)

/-- Embeds `_config_to_yaml`. -/
def configToYaml (config : String) : String :=
  joinLines ("vyos-configuration:" :: (activeStrippedLines config).map (fun l => "  - " ++ l))

/-- Embeds `_config_to_xml`. -/
def configToXml (config : String) : String :=
  joinLines (("<vyos-configuration>" ::
    (activeStrippedLines config).map (fun l => "  <command>" ++ l ++ "</command>")) ++
    ["</vyos-configuration>"])

/-- Embeds `_format_config(config, format)`; `jsonDumpsCfg` stands for
`json.dumps({"configuration": [...]}, indent=2)` (opaque stdlib
serialization). -/
def formatConfig (jsonDumpsCfg : List String → String) (config : String) :
    BackupFormat → String
  | .vyos => config
  | .json => jsonDumpsCfg (activeStrippedLines config)
  | .yaml => configToYaml config
  | .xml => configToXml config
  | .tar => config

/-- Embeds `ConfigBackupManager.create_snapshot`: read the live configuration,
collect version info, format, checksum (`hashFn` stands for the SHA-256
hexdigest), write content and metadata through the executor (`metaJson`
stands for `json.dumps` of the metadata dict), and return the record.
The generated `uuid` and `datetime.now()` are the `snapshotId` / `timestamp`
inputs. -/
def createBackupSnapshot (hashFn : String → String)
    (jsonDumpsCfg : List String → String) (metaJson : BSnapshot → String)
    (backupDir : String) (dev : Device) (name description : String)
    (format : BackupFormat) (snapshotId : String) (timestamp : Nat) :
    BSnapshot × Device :=
  let r := (devExec dev showConfigCmd).1
  let dev1 := (devExec dev showConfigCmd).2
  let configContent := if r.stdout = "" then "" else r.stdout
  let versionInfo := (getVersionInfo dev1).1
  let dev2 := (getVersionInfo dev1).2
  let formatted := formatConfig jsonDumpsCfg configContent format
  let checksum := hashFn formatted
  let filepath := backupDir ++ "/snapshots/" ++ snapshotId ++ "." ++ format.value
  let dev3 := (devExec dev2 (hdEOFPrefix ++ (filepath ++ "\n" ++ formatted ++ "\nEOF"))).2
  let sizeRes := (devExec dev3 ("wc -c " ++ filepath)).1
  let dev4 := (devExec dev3 ("wc -c " ++ filepath)).2
  let size :=
    if sizeRes.stdout = "" then 0
    else (pyParseNat ((pySplitWs (pyStrip sizeRes.stdout)).headD "")).getD 0
  let snapshot : BSnapshot :=
    { id := snapshotId, name := name, description := description,
      timestamp := timestamp, format := format, size := size,
      checksum := checksum, status := .completed, version_info := versionInfo }
  let dev5 := (devExec dev4
    (hdMETAPrefix ++ (backupDir ++ "/snapshots/" ++ snapshotId ++ ".meta" ++ "\n" ++
      metaJson snapshot ++ "\nMETA_EOF"))).2
  (snapshot, dev5)

/-- The restore result dict (`success` / `message` keys). -/
structure RestoreResult where
  success : Bool
  message : String
deriving Repr, DecidableEq

/-- Embeds `str(TypeError)` raised by awaiting the non-awaitable return value of the
synchronous `create_snapshot`. -/
def awaitTypeErrorMsg : String :=
  "object ConfigSnapshot can" ++ sq ++ "t be used in " ++ sq ++ "await" ++ sq ++
    " expression"

/-- Embeds `ConfigBackupManager.restore_from_snapshot(snapshot_id, dry_run)`.
`getSnap` stands for `get_snapshot` (an id-indexed metadata lookup routed
through `ls`/`cat`/`json.loads`, whose JSON deserialization is outside the
embedding).  After the snapshot content is read, the source does
`await self.create_snapshot(...)` although `create_snapshot` is a plain
synchronous method: the call itself runs to completion, after which awaiting
its non-awaitable `ConfigSnapshot` result raises `TypeError`, which the
enclosing `except Exception` handler converts into a failure dict — the
configure/apply/commit sequence below that line is unreachable. -/
def restoreFromSnapshot (hashFn : String → String)
    (jsonDumpsCfg : List String → String) (metaJson : BSnapshot → String)
    (backupDir : String) (getSnap : Device → String → Option BSnapshot)
    (preRestoreId : String) (preRestoreTs : Nat) (dev : Device)
    (snapshotId : String) (dryRun : Bool) : RestoreResult × Device :=
  match getSnap dev snapshotId with
  | none => ({ success := false, message := "Snapshot not found" }, dev)
  | some snapshot =>
    if dryRun then ({ success := true, message := "Dry run successful" }, dev)
    else
      let r := (devExec dev
        ("cat " ++ (backupDir ++ "/snapshots/" ++ snapshotId ++ "." ++
          snapshot.format.value))).1
      let dev1 := (devExec dev
        ("cat " ++ (backupDir ++ "/snapshots/" ++ snapshotId ++ "." ++
          snapshot.format.value))).2
      if r.stdout = "" then
        ({ success := false, message := "Failed to read snapshot content" }, dev1)
      else
        let dev2 := (createBackupSnapshot hashFn jsonDumpsCfg metaJson backupDir
          dev1 ("pre-restore-" ++ snapshotId)
          ("Automatic backup before restoring " ++ snapshotId) .vyos
          preRestoreId preRestoreTs).2
        ({ success := false, message := awaitTypeErrorMsg }, dev2)

/-! ## Theorems -/

/-- C1: the spec scenario fails on the code.  `VALUE_PATTERN` makes the first
token of every multi-token `set` argument the entire path and the remainder
the value (quotes kept), so the two scenario lines each write a scalar onto
the root child `interfaces` — the second overwriting the first — and
`to_dict()` yields the flat single-entry dict, not the claimed nested one. -/
theorem c1_scenario_evaluation :
    (parseConfig ("set interfaces ethernet eth0 address " ++ sq ++ "192.168.1.1/24" ++ sq ++
        "\nset interfaces ethernet eth0 description \"Uplink\"")).toDict =
      NMap.cons "interfaces" (NVal.str "ethernet eth0 description \"Uplink\"") NMap.nil ∧
    (parseConfig ("set interfaces ethernet eth0 address " ++ sq ++ "192.168.1.1/24" ++ sq ++
        "\nset interfaces ethernet eth0 description \"Uplink\"")).toDict ≠
      NMap.cons "interfaces" (NVal.dict (NMap.cons "ethernet" (NVal.dict (NMap.cons "eth0"
        (NVal.dict (NMap.cons "address" (NVal.str "192.168.1.1/24")
          (NMap.cons "description" (NVal.str "Uplink") NMap.nil))) NMap.nil)) NMap.nil)) NMap.nil := by
  refine ⟨rfl, fun h => ?_⟩
  have h' : NMap.cons "interfaces" (NVal.str "ethernet eth0 description \"Uplink\"") NMap.nil =
      NMap.cons "interfaces" (NVal.dict (NMap.cons "ethernet" (NVal.dict (NMap.cons "eth0"
        (NVal.dict (NMap.cons "address" (NVal.str "192.168.1.1/24")
          (NMap.cons "description" (NVal.str "Uplink") NMap.nil))) NMap.nil)) NMap.nil)) NMap.nil := h
  injection h' with _ hv _
  exact NVal.noConfusion hv

/-- C2 counterexample: `add_child` does not clear an existing value, so after
`add_child("a")`, `set_value("v")` on `a`, `add_child("b")` on `a`, the node
`a` has the value `"v"` and a non-empty children map — the claimed invariant
is violated. -/
theorem c2_counterexample :
    ((applyOps ConfigNode.root
        [TreeOp.addChildAt [] "a", TreeOp.setValueAt ["a"] "v",
         TreeOp.addChildAt ["a"] "b"]).getChild ["a"]).map
      (fun n => (n.value, n.children.isNil)) = some (some "v", false) := by
  rfl

/-- C3 counterexample: a key bound to an empty nested map is dropped by the
round trip — `from_dict({"a": {}})` produces a childless, valueless node that
`to_dict()` omits, so the result is `{}`, not the input. -/
theorem c3_counterexample :
    (ConfigNode.fromDict (NMap.cons "a" (NVal.dict NMap.nil) NMap.nil)).toDict ≠
      NMap.cons "a" (NVal.dict NMap.nil) NMap.nil := by
  intro h
  exact NMap.noConfusion
    (show NMap.nil = NMap.cons "a" (NVal.dict NMap.nil) NMap.nil from h)

/-- C4 counterexample: a line with an unterminated single quote is not
skipped — `parse_line` returns a delete command whose tokenizer treated the
quoted region as running to the end of the line. -/
theorem c4_counterexample :
    parseLine ("delete a " ++ sq ++ "b c") =
      some { command_type := "delete", path := ["a", "b c"], value := none,
             original := "delete a " ++ sq ++ "b c" } := by
  rfl

/-- C9 counterexample: a delete command whose final segment names no existing
child leaves `to_dict()` unchanged — applying a delete does not always change
the `to_dict` output. -/
theorem c9_counterexample :
    (applyCommand ConfigNode.root
        { command_type := "delete", path := ["a"] }).toDict =
      ConfigNode.root.toDict := by
  rfl

/-- C10: `list_snapshots` with limit `0` (falsy, like `None`) returns all
snapshots sorted newest-first, and any positive limit `n` returns the first
`n` of that newest-first order. -/
theorem c10_list_snapshots_limit (snaps : List Snapshot) (n : Nat) :
    listSnapshots snaps (some 0) = sortSnapshotsDesc snaps ∧
    listSnapshots snaps none = sortSnapshotsDesc snaps ∧
    (listSnapshots snaps (some 0)).Sorted snapGE ∧
    (0 < n → listSnapshots snaps (some n) = (sortSnapshotsDesc snaps).take n) := by
  refine ⟨by simp [listSnapshots], rfl, ?_, fun hn => ?_⟩
  · simpa [listSnapshots] using List.sorted_insertionSort snapGE snaps
  · simp [listSnapshots, Nat.pos_iff_ne_zero.mp hn]

/-- C10 witness: a concrete positive limit. -/
theorem c10_witness :
    0 < 1 ∧
      listSnapshots [{ id := "a", timestamp := 3 }, { id := "b", timestamp := 5 }] (some 1) =
        (sortSnapshotsDesc [{ id := "a", timestamp := 3 }, { id := "b", timestamp := 5 }]).take 1 :=
  ⟨by decide,
    (c10_list_snapshots_limit [{ id := "a", timestamp := 3 }, { id := "b", timestamp := 5 }] 1).2.2.2
      (by decide)⟩

/-- C5: diff symmetry — swapping the two trees swaps `added` with `removed`
and value-swaps every `modified` entry. -/
theorem c5_diff_symmetry (a b : ConfigNode) :
    (calculateDiff a b).added = (calculateDiff b a).removed ∧
    (calculateDiff a b).removed = (calculateDiff b a).added ∧
    (calculateDiff a b).modified =
      fun k => ((calculateDiff b a).modified k).map (fun p => (p.2, p.1)) := by
  refine ⟨funext fun k => ?_, funext fun k => ?_, funext fun k => ?_⟩ <;>
    simp only [calculateDiff] <;>
    cases hA : flatGet a.flatten k <;> cases hB : flatGet b.flatten k <;> simp
  case _ va vb =>
    by_cases h : va = vb
    · subst h; simp
    · have h2 : ¬vb = va := fun e => h e.symm
      simp [h, h2]

/-! ### Child-map and population lemmas -/

theorem ChildMap.lookup_setAt_self :
    ∀ (cs : ChildMap) (k : String) (c : ConfigNode), (cs.setAt k c).lookup k = some c
  | .nil, k, c => by simp [ChildMap.setAt, ChildMap.lookup]
  | .cons n c0 r, k, c => by
    by_cases h : n = k
    · simp [ChildMap.setAt, h, ChildMap.lookup]
    · simp [ChildMap.setAt, h, ChildMap.lookup, ChildMap.lookup_setAt_self r k c]

theorem ChildMap.append_nil : ∀ (cs : ChildMap), cs.append .nil = cs
  | .nil => rfl
  | .cons n c r => by simp [ChildMap.append, ChildMap.append_nil r]

theorem ChildMap.append_assoc :
    ∀ (a b c : ChildMap), (a.append b).append c = a.append (b.append c)
  | .nil, _, _ => rfl
  | .cons n x r, b, c => by simp [ChildMap.append, ChildMap.append_assoc r b c]

theorem ChildMap.setAt_of_lookup_none :
    ∀ (cs : ChildMap) (k : String) (c : ConfigNode), cs.lookup k = none →
      cs.setAt k c = cs.append (.cons k c .nil)
  | .nil, k, c, _ => rfl
  | .cons n c0 r, k, c, h => by
    by_cases hk : n = k
    · simp [ChildMap.lookup, hk] at h
    · simp only [ChildMap.lookup, hk, if_false, ite_false] at h
      simp [ChildMap.setAt, hk, ChildMap.append, ChildMap.setAt_of_lookup_none r k c h]

theorem ChildMap.lookup_append :
    ∀ (a b : ChildMap) (k : String),
      (a.append b).lookup k = match a.lookup k with
        | some c => some c
        | none => b.lookup k
  | .nil, _, _ => rfl
  | .cons n c r, b, k => by
    by_cases h : n = k <;>
      simp [ChildMap.append, ChildMap.lookup, h, ChildMap.lookup_append r b k]

theorem getChild_modifyAt :
    ∀ (p : List String) (t : ConfigNode) (f : ConfigNode → ConfigNode),
      (modifyAt t p f).getChild p = (t.getChild p).map f
  | [], .mk _ _ _ _ _, _ => rfl
  | k :: rest, .mk pp v cs d cm, f => by
    cases h : cs.lookup k with
    | none => simp [modifyAt, ConfigNode.getChild, ConfigNode.children, h]
    | some c =>
      simp [modifyAt, ConfigNode.getChild, ConfigNode.children, h,
        ChildMap.lookup_setAt_self, getChild_modifyAt rest c f]

theorem ConfigNode.value_addChild :
    ∀ (n : ConfigNode) (name : String), (n.addChild name).value = n.value
  | .mk p v cs d cm, name => by
    cases h : cs.lookup name <;> simp [ConfigNode.addChild, h, ConfigNode.value]

/-- C2 amended: `set_value` does establish the exclusivity locally — the node
just written has a value and no children — but `add_child` on a valued node
keeps the value, so a valued node can acquire children and the claimed
invariant does not hold for sequences mixing the two operations. -/
theorem c2_amended (t : ConfigNode) (p : List String) (v name : String) :
    (∀ n, (applyOp t (TreeOp.setValueAt p v)).getChild p = some n →
      n.value = some v ∧ n.children = ChildMap.nil) ∧
    (∀ n, t.getChild p = some n →
      ∃ n2, (applyOp t (TreeOp.addChildAt p name)).getChild p = some n2 ∧
        n2.value = n.value) := by
  constructor
  · intro n hn
    rw [applyOp, getChild_modifyAt] at hn
    cases ht : t.getChild p with
    | none => rw [ht] at hn; exact absurd hn (by simp)
    | some n0 =>
      rw [ht] at hn
      simp only [Option.map_some', Option.some.injEq] at hn
      subst hn
      cases n0 with
      | mk p0 v0 cs0 d0 cm0 => exact ⟨rfl, rfl⟩
  · intro n hn
    refine ⟨n.addChild name, ?_, ConfigNode.value_addChild n name⟩
    rw [applyOp, getChild_modifyAt, hn]
    rfl

/-- C2 amended witness: a concrete `set_value` leaving a childless valued
node. -/
theorem c2_amended_witness :
    (ConfigNode.mk ["a"] (some "v") ChildMap.nil false none).value = some "v" ∧
    (ConfigNode.mk ["a"] (some "v") ChildMap.nil false none).children = ChildMap.nil :=
  (c2_amended (ConfigNode.root.addChild "a") ["a"] "v" "b").1
    (ConfigNode.mk ["a"] (some "v") ChildMap.nil false none) rfl

/-! ### Round-trip lemmas (C3) -/

theorem renderVal_eq (q : List String) (val : NVal) :
    renderVal q val = populateInto (ConfigNode.new q) val := by
  cases val <;> rfl

theorem renderMap_isNil : ∀ (p : List String) (m : NMap), (renderMap p m).isNil = m.isNil
  | _, .nil => rfl
  | _, .cons _ _ _ => rfl

theorem populate_fresh :
    ∀ (m : NMap) (p : List String) (v : Option String) (cs : ChildMap) (d : Bool)
      (cm : Option String),
      (∀ k, m.hasKey k = true → cs.lookup k = none) → nodupMap m = true →
      populate (.mk p v cs d cm) m = .mk p v (cs.append (renderMap p m)) d cm
  | .nil, p, v, cs, d, cm, _, _ => by
    simp [populate, renderMap, ChildMap.append_nil]
  | .cons k val rest, p, v, cs, d, cm, hfresh, hnd => by
    have hkcs : cs.lookup k = none := hfresh k (by simp [NMap.hasKey])
    have hnd1 : nodupMap rest = true := by
      simp [nodupMap] at hnd; exact hnd.2
    have hndk : rest.hasKey k = false := by
      simp [nodupMap] at hnd; exact hnd.1.1
    have hndv : nodupVal val = true := by
      simp [nodupMap] at hnd; exact hnd.1.2
    have hfresh1 : ∀ k2, rest.hasKey k2 = true →
        (cs.setAt k (populateInto (ConfigNode.new (p ++ [k])) val)).lookup k2 = none := by
      intro k2 h2
      have hne : k ≠ k2 := by
        intro he; rw [he] at hndk; rw [hndk] at h2; exact Bool.noConfusion h2
      rw [ChildMap.setAt_of_lookup_none cs k _ hkcs, ChildMap.lookup_append]
      rw [hfresh k2 (by simp [NMap.hasKey, h2])]
      simp [ChildMap.lookup, hne]
    calc populate (.mk p v cs d cm) (.cons k val rest)
        = populate (.mk p v (cs.setAt k (populateInto (ConfigNode.new (p ++ [k])) val)) d cm)
            rest := by
          simp only [populate, hkcs]
      _ = .mk p v ((cs.setAt k (populateInto (ConfigNode.new (p ++ [k])) val)).append
            (renderMap p rest)) d cm :=
          populate_fresh rest p v _ d cm hfresh1 hnd1
      _ = .mk p v (cs.append (renderMap p (.cons k val rest))) d cm := by
          rw [ChildMap.setAt_of_lookup_none cs k _ hkcs, ChildMap.append_assoc]
          simp [renderMap, ChildMap.append, renderVal_eq]

theorem toDictMap_cons (n : String) (c : ConfigNode) (r : ChildMap) :
    toDictMap (.cons n c r) = match childContrib c with
      | some nv => .cons n nv (toDictMap r)
      | none => toDictMap r := by
  cases hd : c.deleted <;> simp only [toDictMap, childContrib, hd] <;>
    [skip; simp] <;> cases hv : c.value <;> simp only [] <;>
    cases hn : c.children.isNil <;> simp

mutual
theorem render_contrib :
    ∀ (val : NVal) (q : List String), goodVal val = true → nodupVal val = true →
      childContrib (renderVal q val) = some val
  | .str s, q, _, _ => rfl
  | .dict entries, q, hg, hn => by
    have hne : entries.isNil = false := by
      simp [goodVal] at hg; simpa using hg.1
    have hgm : goodMap entries = true := by simp [goodVal] at hg; exact hg.2
    have hnm : nodupMap entries = true := by simpa [nodupVal] using hn
    have hpop : renderVal q (.dict entries) =
        .mk q none (ChildMap.nil.append (renderMap q entries)) false none := by
      show populate (ConfigNode.new q) entries = _
      exact populate_fresh entries q none .nil false none (fun _ _ => rfl) hnm
    rw [hpop]
    show childContrib (.mk q none (renderMap q entries) false none) = some (.dict entries)
    have hcn : (renderMap q entries).isNil = false := by
      rw [renderMap_isNil]; exact hne
    simp only [childContrib, ConfigNode.deleted, ConfigNode.value, ConfigNode.children,
      hcn, Bool.false_eq_true, if_false, ite_false]
    show some (NVal.dict (toDictMap (renderMap q entries))) = some (.dict entries)
    rw [render_toDict entries q hgm hnm]

theorem render_toDict :
    ∀ (m : NMap) (p : List String), goodMap m = true → nodupMap m = true →
      toDictMap (renderMap p m) = m
  | .nil, _, _, _ => rfl
  | .cons k val rest, p, hg, hn => by
    have hgv : goodVal val = true := by simp [goodMap] at hg; exact hg.1
    have hgr : goodMap rest = true := by simp [goodMap] at hg; exact hg.2
    have hnv : nodupVal val = true := by simp [nodupMap] at hn; exact hn.1.2
    have hnr : nodupMap rest = true := by simp [nodupMap] at hn; exact hn.2
    show toDictMap (.cons k (renderVal (p ++ [k]) val) (renderMap p rest)) = .cons k val rest
    rw [toDictMap_cons, render_contrib val (p ++ [k]) hgv hnv,
      render_toDict rest p hgr hnr]
end

/-- C3 amended: the round trip `from_dict(m).to_dict() == m` holds for every
nested map whose sub-maps are all non-empty (keys are unique at every level,
as they are in a Python dict); keys bound to empty maps are the entries the
round trip drops. -/
theorem c3_amended (m : NMap) (hg : goodMap m = true) (hn : nodupMap m = true) :
    (ConfigNode.fromDict m).toDict = m := by
  have hpop := populate_fresh m [] none .nil false none (fun _ _ => rfl) hn
  show toDictNode (populate (.mk [] none .nil false none) m) = m
  rw [hpop]
  show toDictMap (ChildMap.nil.append (renderMap [] m)) = m
  exact render_toDict m [] hg hn

/-! ### Tokenizer lemmas (C4) -/

theorem tokenizeQuoteState_cons (c : Char) (l : List Char) (inQ : Bool) (qc : Char) :
    tokenizeQuoteState (c :: l) (inQ, qc) =
      if (c = '"' || c = '\'') && (!inQ || c = qc) then tokenizeQuoteState l (!inQ, c)
      else tokenizeQuoteState l (inQ, qc) :=
  rfl

/-- While the quote flag is set, the recorded quote character is one of the
two quote characters (it is only ever written by one of them). -/
theorem tokenizeQuoteState_quote :
    ∀ (l : List Char) (inQ : Bool) (qc : Char),
      (inQ = true → qc = '"' ∨ qc = '\'') →
      (tokenizeQuoteState l (inQ, qc)).1 = true →
      (tokenizeQuoteState l (inQ, qc)).2 = '"' ∨ (tokenizeQuoteState l (inQ, qc)).2 = '\''
  | [], _, _, hq, hfin => hq hfin
  | c :: l, inQ, qc, hq, hfin => by
    rw [tokenizeQuoteState_cons] at hfin ⊢
    by_cases hc : ((c = '"' || c = '\'') && (!inQ || c = qc)) = true
    · rw [if_pos hc] at hfin ⊢
      have hcq : c = '"' ∨ c = '\'' := by
        have := ((Bool.and_eq_true _ _).mp hc).1
        simpa using this
      exact tokenizeQuoteState_quote l (!inQ) c (fun _ => hcq) hfin
    · rw [if_neg hc] at hfin ⊢
      exact tokenizeQuoteState_quote l inQ qc hq hfin

/-- Appending the quote character recorded by an in-quotes final state closes
the quote without changing the token list: the closing quote only toggles the
flag and the loop then flushes the same current token. -/
theorem tokenizeAux_append_close :
    ∀ (l : List Char) (cur : List Char) (inQ : Bool) (qc : Char),
      (inQ = true → qc = '"' ∨ qc = '\'') →
      (tokenizeQuoteState l (inQ, qc)).1 = true →
      tokenizeAux (l ++ [(tokenizeQuoteState l (inQ, qc)).2]) cur inQ qc =
        tokenizeAux l cur inQ qc
  | [], cur, inQ, qc, hq, hfin => by
    have hinq : inQ = true := hfin
    subst hinq
    have hq1 : (qc = '"' || qc = '\'') = true := by
      rcases hq rfl with h | h <;> simp [h]
    show tokenizeAux [qc] cur true qc = tokenizeAux [] cur true qc
    simp [tokenizeAux, hq1]
  | c :: l, cur, inQ, qc, hq, hfin => by
    rw [tokenizeQuoteState_cons] at hfin ⊢
    by_cases hc : ((c = '"' || c = '\'') && (!inQ || c = qc)) = true
    · rw [if_pos hc] at hfin ⊢
      have hcq : c = '"' ∨ c = '\'' := by
        have := ((Bool.and_eq_true _ _).mp hc).1
        simpa using this
      show tokenizeAux (c :: (l ++ [(tokenizeQuoteState l (!inQ, c)).2])) cur inQ qc =
        tokenizeAux (c :: l) cur inQ qc
      simp only [tokenizeAux, hc, if_true, ite_true]
      exact tokenizeAux_append_close l cur (!inQ) c (fun _ => hcq) hfin
    · rw [if_neg hc] at hfin ⊢
      show tokenizeAux (c :: (l ++ [(tokenizeQuoteState l (inQ, qc)).2])) cur inQ qc =
        tokenizeAux (c :: l) cur inQ qc
      have hcf : ((c = '"' || c = '\'') && (!inQ || c = qc)) = false := by
        simpa using hc
      simp only [tokenizeAux, hcf, Bool.false_eq_true, if_false, ite_false]
      by_cases hs : (pyIsSpace c && !inQ) = true
      · simp only [hs, if_true, ite_true]
        by_cases hcur : cur.isEmpty = true <;>
          simp [hcur, tokenizeAux_append_close l [] inQ qc hq hfin]
      · have hsf : (pyIsSpace c && !inQ) = false := by simpa using hs
        simp only [hsf, Bool.false_eq_true, if_false, ite_false]
        exact tokenizeAux_append_close l (cur ++ [c]) inQ qc hq hfin

/-- C4 amended: an unterminated quote — single or double, regardless of any
balanced quoted regions earlier on the line — is not a parse failure; the
tokenizer treats the open quoted region as extending to the end of the line,
so the line tokenizes exactly as if the matching closing quote were appended
(and, per the counterexample, such lines still produce commands; lines are
processed independently either way). -/
theorem c4_amended (s : String)
    (hun : (tokenizeQuoteState s.data (false, ' ')).1 = true) :
    tokenizePath s =
      tokenizePath (s ++ ⟨[(tokenizeQuoteState s.data (false, ' ')).2]⟩) := by
  show tokenizeAux s.data [] false ' ' =
    tokenizeAux (s ++ ⟨[(tokenizeQuoteState s.data (false, ' ')).2]⟩).data [] false ' '
  rw [String.data_append]
  exact (tokenizeAux_append_close s.data [] false ' '
    (fun h => absurd h (by decide)) hun).symm

/-- C4 amended witness: a line with an unterminated double quote, and a line
with a balanced single-quoted region followed by an unterminated double
quote, both tokenize as with the closing quote appended. -/
theorem c4_amended_witness :
    ((tokenizeQuoteState ("delete a \"b c" : String).data (false, ' ')).1 = true ∧
      tokenizePath "delete a \"b c" =
        tokenizePath ("delete a \"b c" ++
          ⟨[(tokenizeQuoteState ("delete a \"b c" : String).data (false, ' ')).2]⟩)) ∧
    ((tokenizeQuoteState ("delete " ++ sq ++ "a b" ++ sq ++ " \"c d").data
        (false, ' ')).1 = true ∧
      tokenizePath ("delete " ++ sq ++ "a b" ++ sq ++ " \"c d") =
        tokenizePath (("delete " ++ sq ++ "a b" ++ sq ++ " \"c d") ++
          ⟨[(tokenizeQuoteState ("delete " ++ sq ++ "a b" ++ sq ++ " \"c d").data
            (false, ' ')).2]⟩)) :=
  ⟨⟨by decide, c4_amended "delete a \"b c" (by decide)⟩,
    ⟨by decide, c4_amended ("delete " ++ sq ++ "a b" ++ sq ++ " \"c d") (by decide)⟩⟩

/-! ### Flatten lemmas (C9) -/

theorem flattenMap_cons (pre name : String) (c : ConfigNode) (r : ChildMap) :
    flattenMap pre (.cons name c r) = flattenEntry pre name c ++ flattenMap pre r :=
  rfl

theorem flattenEntry_eq (pre name : String) :
    ∀ (c : ConfigNode), flattenEntry pre name c =
      match c.value with
      | some v => [((if pre = "" then name else pre ++ name), v)]
      | none =>
        if c.children.isNil then []
        else flattenNode ((if pre = "" then name else pre ++ name) ++ ".") c
  | .mk _ _ _ _ _ => rfl

theorem flattenNode_eq : ∀ (pre : String) (c : ConfigNode),
    flattenNode pre c = flattenMap pre c.children
  | _, .mk _ _ _ _ _ => rfl

theorem flattenNode_setDeleted (pre : String) (b : Bool) :
    ∀ (c : ConfigNode), flattenNode pre (c.setDeleted b) = flattenNode pre c
  | .mk _ _ _ _ _ => rfl

theorem flattenEntry_setDeleted (pre name : String) (b : Bool) :
    ∀ (c : ConfigNode), flattenEntry pre name (c.setDeleted b) = flattenEntry pre name c
  | .mk _ _ _ _ _ => rfl

theorem ChildMap.isNil_lookup_some :
    ∀ (cs : ChildMap) (k : String) (c : ConfigNode), cs.lookup k = some c → cs.isNil = false
  | .nil, _, _, h => by simp [ChildMap.lookup] at h
  | .cons _ _ _, _, _, _ => rfl

theorem ChildMap.isNil_setAt :
    ∀ (cs : ChildMap) (k : String) (c : ConfigNode), (cs.setAt k c).isNil = false
  | .nil, _, _ => rfl
  | .cons n c0 r, k, c => by
    by_cases h : n = k <;> simp [ChildMap.setAt, h, ChildMap.isNil]

theorem flattenMap_setAt :
    ∀ (cs : ChildMap) (k : String) (c c' : ConfigNode) (pre : String),
      cs.lookup k = some c →
      (∀ name, flattenEntry pre name c' = flattenEntry pre name c) →
      flattenMap pre (cs.setAt k c') = flattenMap pre cs
  | .nil, k, c, c', pre, h, _ => by simp [ChildMap.lookup] at h
  | .cons n c0 r, k, c, c', pre, h, hE => by
    by_cases hk : n = k
    · subst hk
      have h2 : c0 = c := by simpa [ChildMap.lookup] using h
      subst h2
      simp [ChildMap.setAt, flattenMap_cons, hE n]
    · simp only [ChildMap.lookup, hk, if_false, ite_false] at h
      simp [ChildMap.setAt, hk, flattenMap_cons,
        flattenMap_setAt r k c c' pre h hE]

theorem flattenMap_append :
    ∀ (a b : ChildMap) (pre : String),
      flattenMap pre (a.append b) = flattenMap pre a ++ flattenMap pre b
  | .nil, b, pre => by simp [ChildMap.append, flattenMap]
  | .cons n c r, b, pre => by
    simp [ChildMap.append, flattenMap_cons, flattenMap_append r b pre]

theorem value_applyAux_delete (cv : Option String) :
    ∀ (p : List String) (t : ConfigNode), (applyAux t "delete" cv p).value = t.value
  | [], _ => rfl
  | [f], .mk pp v cs d cm => by
    simp only [applyAux, applyFinal]
    simp only [if_true, if_false]
    cases h : cs.lookup f <;> simp [h, ConfigNode.value]
  | k :: k2 :: rest, .mk pp v cs d cm => by
    simp only [applyAux]
    cases h : cs.lookup k <;> simp [h, ConfigNode.value]

mutual

theorem flattenNode_applyDelete (cv : Option String) :
    ∀ (p : List String) (t : ConfigNode) (pre : String),
      flattenNode pre (applyAux t "delete" cv p) = flattenNode pre t
  | [], _, _ => rfl
  | [f], .mk pp v cs d cm, pre => by
    simp only [applyAux, applyFinal]
    simp only [if_true, if_false]
    cases h : cs.lookup f with
    | none => rfl
    | some c =>
      show flattenMap pre (cs.setAt f (c.setDeleted true)) = flattenMap pre cs
      exact flattenMap_setAt cs f c _ pre h
        (fun name => flattenEntry_setDeleted pre name true c)
  | k :: k2 :: rest, .mk pp v cs d cm, pre => by
    simp only [applyAux]
    cases h : cs.lookup k with
    | some c =>
      show flattenMap pre (cs.setAt k (applyAux c "delete" cv (k2 :: rest))) =
        flattenMap pre cs
      exact flattenMap_setAt cs k c _ pre h
        (fun name => flattenEntry_applyDelete cv (k2 :: rest) c pre name (by simp))
    | none =>
      show flattenMap pre
          (cs.setAt k (applyAux (ConfigNode.new (pp ++ [k])) "delete" cv (k2 :: rest))) =
        flattenMap pre cs
      rw [ChildMap.setAt_of_lookup_none cs k _ h, flattenMap_append, flattenMap_cons,
        flattenEntry_applyDelete_new cv (k2 :: rest) (pp ++ [k]) pre k]
      simp [flattenMap]

theorem flattenEntry_applyDelete (cv : Option String) :
    ∀ (p : List String) (c : ConfigNode) (pre name : String), p ≠ [] →
      flattenEntry pre name (applyAux c "delete" cv p) = flattenEntry pre name c
  | [], _, _, _, hne => absurd rfl hne
  | [f], .mk pp v cs d cm, pre, name, _ => by
    simp only [applyAux, applyFinal]
    simp only [if_true, if_false]
    cases h : cs.lookup f with
    | none => rfl
    | some c =>
      rw [flattenEntry_eq, flattenEntry_eq]
      cases v with
      | some s => rfl
      | none =>
        show (if (cs.setAt f (c.setDeleted true)).isNil then _
          else flattenMap _ (cs.setAt f (c.setDeleted true))) =
          (if cs.isNil then _ else flattenMap _ cs)
        rw [ChildMap.isNil_setAt, ChildMap.isNil_lookup_some cs f c h]
        simp only [Bool.false_eq_true, if_false, ite_false]
        exact flattenMap_setAt cs f c _ _ h
          (fun nm => flattenEntry_setDeleted _ nm true c)
  | k :: k2 :: rest, .mk pp v cs d cm, pre, name, _ => by
    simp only [applyAux]
    cases h : cs.lookup k with
    | some c =>
      rw [flattenEntry_eq, flattenEntry_eq]
      cases v with
      | some s => rfl
      | none =>
        show (if (cs.setAt k (applyAux c "delete" cv (k2 :: rest))).isNil then _
          else flattenMap _ (cs.setAt k (applyAux c "delete" cv (k2 :: rest)))) =
          (if cs.isNil then _ else flattenMap _ cs)
        rw [ChildMap.isNil_setAt, ChildMap.isNil_lookup_some cs k c h]
        simp only [Bool.false_eq_true, if_false, ite_false]
        exact flattenMap_setAt cs k c _ _ h
          (fun nm => flattenEntry_applyDelete cv (k2 :: rest) c _ nm (by simp))
    | none =>
      rw [flattenEntry_eq, flattenEntry_eq]
      cases v with
      | some s => rfl
      | none =>
        show (if (cs.setAt k (applyAux (ConfigNode.new (pp ++ [k])) "delete" cv
              (k2 :: rest))).isNil then _
          else flattenMap _ (cs.setAt k (applyAux (ConfigNode.new (pp ++ [k])) "delete" cv
              (k2 :: rest)))) =
          (if cs.isNil then _ else flattenMap _ cs)
        rw [ChildMap.isNil_setAt,
          ChildMap.setAt_of_lookup_none cs k _ h, flattenMap_append, flattenMap_cons,
          flattenEntry_applyDelete_new cv (k2 :: rest) (pp ++ [k]) _ k]
        cases hnil : cs.isNil with
        | true =>
          cases cs with
          | nil => simp [flattenMap]
          | cons _ _ _ => exact absurd hnil (by simp [ChildMap.isNil])
        | false => simp [flattenMap]

theorem flattenEntry_applyDelete_new (cv : Option String) :
    ∀ (p : List String) (q : List String) (pre name : String),
      flattenEntry pre name (applyAux (ConfigNode.new q) "delete" cv p) = []
  | [], _, _, _ => rfl
  | [f], q, pre, name => by
    simp only [applyAux, applyFinal, ConfigNode.new]
    simp only [if_true, if_false]
    rfl
  | k :: k2 :: rest, q, pre, name => by
    simp only [applyAux, ConfigNode.new]
    show flattenEntry pre name
      (.mk q none ((ChildMap.nil).setAt k
        (applyAux (ConfigNode.new (q ++ [k])) "delete" cv (k2 :: rest))) false none) = []
    rw [flattenEntry_eq]
    show (if ((ChildMap.nil).setAt k
          (applyAux (ConfigNode.new (q ++ [k])) "delete" cv (k2 :: rest))).isNil then ([] : List (String × String))
        else flattenMap _ ((ChildMap.nil).setAt k
          (applyAux (ConfigNode.new (q ++ [k])) "delete" cv (k2 :: rest)))) = []
    rw [ChildMap.isNil_setAt]
    simp only [Bool.false_eq_true, if_false, ite_false]
    show flattenEntry _ k (applyAux (ConfigNode.new (q ++ [k])) "delete" cv (k2 :: rest)) ++
      flattenMap _ ChildMap.nil = []
    rw [flattenEntry_applyDelete_new cv (k2 :: rest) (q ++ [k]) _ k]
    rfl

end

mutual

theorem flattenNode_clearDel :
    ∀ (pre : String) (t : ConfigNode), flattenNode pre (clearDelNode t) = flattenNode pre t
  | pre, .mk p v cs d cm => flattenMap_clearDel pre cs

theorem flattenMap_clearDel :
    ∀ (pre : String) (cs : ChildMap), flattenMap pre (clearDelMap cs) = flattenMap pre cs
  | _, .nil => rfl
  | pre, .cons name c rest => by
    rw [clearDelMap, flattenMap_cons, flattenMap_cons, flattenMap_clearDel pre rest]
    congr 1
    rw [flattenEntry_eq, flattenEntry_eq]
    cases c with
    | mk p v cs2 d cm =>
      cases v with
      | some s => rfl
      | none =>
        show (if (clearDelMap cs2).isNil then ([] : List (String × String))
            else flattenNode ((if pre = "" then name else pre ++ name) ++ ".")
              (clearDelNode (.mk p none cs2 d cm))) =
          (if cs2.isNil then []
            else flattenNode ((if pre = "" then name else pre ++ name) ++ ".")
              (.mk p none cs2 d cm))
        have hiso : (clearDelMap cs2).isNil = cs2.isNil := by
          cases cs2 <;> rfl
        rw [hiso]
        cases hnil : cs2.isNil with
        | true => rfl
        | false => rw [flattenNode_clearDel]

end

/-- C9 amended: `flatten` never consults the tombstone flag — trees equal up
to `deleted` flags flatten identically — so applying a `delete` command
leaves `flatten` and every `calculate_diff` result unchanged; `to_dict` may
change (it does when the delete reaches an existing visible child) but, per
the counterexample, not always. -/
theorem c9_amended (t1 t2 u : ConfigNode) (dp : List String) (dv : Option String) :
    (clearDelNode t1 = clearDelNode t2 → t1.flatten = t2.flatten) ∧
    (applyCommand t1 { command_type := "delete", path := dp, value := dv }).flatten =
      t1.flatten ∧
    calculateDiff (applyCommand t1 { command_type := "delete", path := dp, value := dv }) u =
      calculateDiff t1 u ∧
    calculateDiff u (applyCommand t1 { command_type := "delete", path := dp, value := dv }) =
      calculateDiff u t1 := by
  have hflat : (applyCommand t1 { command_type := "delete", path := dp, value := dv }).flatten =
      t1.flatten := flattenNode_applyDelete dv dp t1 ""
  refine ⟨fun h => ?_, hflat, ?_, ?_⟩
  · calc t1.flatten = flattenNode "" (clearDelNode t1) := (flattenNode_clearDel "" t1).symm
      _ = flattenNode "" (clearDelNode t2) := by rw [h]
      _ = t2.flatten := flattenNode_clearDel "" t2
  · simp only [calculateDiff, hflat]
  · simp only [calculateDiff, hflat]

/-- C9 amended witness: flatten-insensitivity applied to a tree and its
tombstoned variant. -/
theorem c9_amended_witness :
    (ConfigNode.mk [] none (.cons "a" (.mk ["a"] (some "1") .nil true none) .nil) false
      none).flatten =
      (ConfigNode.mk [] none (.cons "a" (.mk ["a"] (some "1") .nil false none) .nil) false
        none).flatten :=
  (c9_amended
    (ConfigNode.mk [] none (.cons "a" (.mk ["a"] (some "1") .nil true none) .nil) false none)
    (ConfigNode.mk [] none (.cons "a" (.mk ["a"] (some "1") .nil false none) .nil) false none)
    ConfigNode.root [] none).1 rfl

/-! ### Validator lemmas (C7) -/

theorem findRuleLoop_eq_find? {R : Type} (pathStr : String) :
    ∀ (rules : List (String × R)),
      findRuleLoop pathStr rules =
        (rules.find? (fun pr => pathMatches pr.1 pathStr)).map (·.2)
  | [] => rfl
  | (rulePath, rule) :: rest => by
    by_cases h : pathMatches rulePath pathStr = true
    · simp [findRuleLoop, List.find?, h]
    · simp only [Bool.not_eq_true] at h
      simp [findRuleLoop, List.find?, h, findRuleLoop_eq_find? pathStr rest]

theorem pathMatchesLoop_cons (p q : String) (l : List (String × String)) :
    pathMatchesLoop ((p, q) :: l) = true ↔
      (p = "*" ∨ p = q) ∧ pathMatchesLoop l = true := by
  by_cases h1 : p = "*"
  · simp [pathMatchesLoop, h1]
  · by_cases h2 : p = q
    · subst h2; simp [pathMatchesLoop, h1]
    · simp [pathMatchesLoop, h1, h2]

theorem pathMatchesLoop_zip_iff :
    ∀ (ps qs : List String), ps.length = qs.length →
      (pathMatchesLoop (ps.zip qs) = true ↔
        ∀ i (h1 : i < ps.length) (h2 : i < qs.length),
          ps.get ⟨i, h1⟩ = "*" ∨ ps.get ⟨i, h1⟩ = qs.get ⟨i, h2⟩)
  | [], [], _ => by simp [pathMatchesLoop]
  | [], _ :: _, h => by simp at h
  | _ :: _, [], h => by simp at h
  | p :: ps, q :: qs, h => by
    have hlen : ps.length = qs.length := by simpa using h
    rw [List.zip_cons_cons, pathMatchesLoop_cons, pathMatchesLoop_zip_iff ps qs hlen]
    constructor
    · rintro ⟨hd, tl⟩ i h1 h2
      cases i with
      | zero => exact hd
      | succ j => exact tl j (by simpa using h1) (by simpa using h2)
    · intro hall
      refine ⟨hall 0 (by simp) (by simp), fun j h1 h2 => ?_⟩
      simpa using hall (j + 1) (by simpa using h1) (by simpa using h2)

theorem pathMatches_segments_iff (pat pathStr : String) :
    pathMatches pat pathStr = true ↔
      ((pySplitChar '.' pat).length = (pySplitChar '.' pathStr).length ∧
        ∀ i (h1 : i < (pySplitChar '.' pat).length)
          (h2 : i < (pySplitChar '.' pathStr).length),
          (pySplitChar '.' pat).get ⟨i, h1⟩ = "*" ∨
          (pySplitChar '.' pat).get ⟨i, h1⟩ = (pySplitChar '.' pathStr).get ⟨i, h2⟩) := by
  unfold pathMatches
  by_cases hlen : (pySplitChar '.' pat).length = (pySplitChar '.' pathStr).length
  · simp only [hlen, ne_eq, not_true_eq_false, if_false, ite_false]
    rw [pathMatchesLoop_zip_iff _ _ hlen]
    simp [hlen]
  · rw [if_pos (by exact hlen)]
    simp only [Bool.false_eq_true, false_iff, not_and]
    intro hcon
    exact absurd hcon hlen

mutual

theorem validateNode_no_rule {R : Type} (rules : List (String × R))
    (checkValue : String → String → R → List ValidationError) :
    ∀ (t : ConfigNode) (pre : String),
      (∀ pv ∈ valuedPathsNode pre t, findMatchingRule rules pv.1 = none) →
      validateNode rules checkValue pre t = []
  | .mk p v cs d cm, pre, h => by
    cases v with
    | some s =>
      have hhead : findMatchingRule rules (pyRstrip '.' pre) = none :=
        h (pyRstrip '.' pre, s) (by
          show (pyRstrip '.' pre, s) ∈ (pyRstrip '.' pre, s) :: valuedPathsMap pre cs
          exact List.mem_cons_self _ _)
      have htail : ∀ pv ∈ valuedPathsMap pre cs, findMatchingRule rules pv.1 = none := by
        intro pv hpv
        exact h pv (by
          show pv ∈ (pyRstrip '.' pre, s) :: valuedPathsMap pre cs
          exact List.mem_cons_of_mem _ hpv)
      show (match findMatchingRule rules (pyRstrip '.' pre) with
        | some rule => checkValue (pyRstrip '.' pre) s rule
        | none => []) ++ validateMap rules checkValue pre cs = []
      rw [hhead, validateMap_no_rule rules checkValue cs pre htail]
      rfl
    | none =>
      show [] ++ validateMap rules checkValue pre cs = []
      rw [validateMap_no_rule rules checkValue cs pre (fun pv hpv => h pv (by
        show pv ∈ [] ++ valuedPathsMap pre cs
        simpa using hpv))]
      rfl

theorem validateMap_no_rule {R : Type} (rules : List (String × R))
    (checkValue : String → String → R → List ValidationError) :
    ∀ (cs : ChildMap) (pre : String),
      (∀ pv ∈ valuedPathsMap pre cs, findMatchingRule rules pv.1 = none) →
      validateMap rules checkValue pre cs = []
  | .nil, _, _ => rfl
  | .cons name c rest, pre, h => by
    cases hd : c.deleted with
    | true =>
      show (if c.deleted then [] else validateNode rules checkValue (pre ++ name ++ ".") c) ++
        validateMap rules checkValue pre rest = []
      rw [hd]
      simp only [if_true, List.nil_append, ite_true]
      exact validateMap_no_rule rules checkValue rest pre (fun pv hpv => h pv (by
        show pv ∈ (if c.deleted then [] else valuedPathsNode (pre ++ name ++ ".") c) ++
          valuedPathsMap pre rest
        rw [hd]
        simpa using hpv))
    | false =>
      have hmem : ∀ pv, pv ∈ valuedPathsNode (pre ++ name ++ ".") c ∨
          pv ∈ valuedPathsMap pre rest → findMatchingRule rules pv.1 = none := by
        intro pv hpv
        exact h pv (by
          show pv ∈ (if c.deleted then [] else valuedPathsNode (pre ++ name ++ ".") c) ++
            valuedPathsMap pre rest
          rw [hd]
          simp only [Bool.false_eq_true, if_false, ite_false, List.mem_append]
          exact hpv)
      show (if c.deleted then [] else validateNode rules checkValue (pre ++ name ++ ".") c) ++
        validateMap rules checkValue pre rest = []
      rw [hd]
      simp only [Bool.false_eq_true, if_false, ite_false]
      rw [validateNode_no_rule rules checkValue c (pre ++ name ++ ".")
          (fun pv hpv => hmem pv (Or.inl hpv)),
        validateMap_no_rule rules checkValue rest pre
          (fun pv hpv => hmem pv (Or.inr hpv))]
      rfl

end

/-- C7: rule lookup — the exact-path rule wins when present; otherwise the
first rule in insertion order whose pattern splits into the same number of
segments with every non-`*` segment equal to the path's segment applies
(`*` matches exactly one arbitrary segment); a valued node with no matching
rule contributes no validation errors. -/
theorem c7_rule_lookup {R : Type} (rules : List (String × R)) (pathStr : String) :
    (∀ r, lookupAL rules pathStr = some r → findMatchingRule rules pathStr = some r) ∧
    (lookupAL rules pathStr = none →
      findMatchingRule rules pathStr =
        (rules.find? (fun pr => pathMatches pr.1 pathStr)).map (·.2)) ∧
    (∀ pat, pathMatches pat pathStr = true ↔
      ((pySplitChar '.' pat).length = (pySplitChar '.' pathStr).length ∧
        ∀ i (h1 : i < (pySplitChar '.' pat).length)
          (h2 : i < (pySplitChar '.' pathStr).length),
          (pySplitChar '.' pat).get ⟨i, h1⟩ = "*" ∨
          (pySplitChar '.' pat).get ⟨i, h1⟩ = (pySplitChar '.' pathStr).get ⟨i, h2⟩)) ∧
    (∀ (checkValue : String → String → R → List ValidationError) (t : ConfigNode),
      (∀ pv ∈ valuedPaths t, findMatchingRule rules pv.1 = none) →
      validate rules checkValue t = []) := by
  refine ⟨?_, ?_, fun pat => pathMatches_segments_iff pat pathStr, ?_⟩
  · intro r h
    simp [findMatchingRule, h]
  · intro h
    simp [findMatchingRule, h, findRuleLoop_eq_find?]
  · intro checkValue t h
    exact validateNode_no_rule rules checkValue t "" h

/-- C7 witness: a concrete exact-path hit. -/
theorem c7_witness :
    lookupAL [("system.host-name", 7)] "system.host-name" = some 7 ∧
    findMatchingRule [("system.host-name", 7)] "system.host-name" = some 7 :=
  ⟨rfl, (c7_rule_lookup [("system.host-name", 7)] "system.host-name").1 7 rfl⟩

/-! ### Snapshot-index lemmas (C6) -/

theorem snap_sorted_sortDesc (l : List Snapshot) :
    (sortSnapshotsDesc l).Sorted snapGE :=
  List.sorted_insertionSort snapGE l

theorem snap_perm_sortDesc (l : List Snapshot) :
    List.Perm (sortSnapshotsDesc l) l :=
  List.perm_insertionSort snapGE l

theorem snapTsNe_symm :
    Symmetric (fun a b : Snapshot => a.timestamp ≠ b.timestamp) :=
  fun _ _ h e => h e.symm

theorem snap_sorted_strict {l : List Snapshot} (hs : l.Sorted snapGE)
    (hne : l.Pairwise (fun a b => a.timestamp ≠ b.timestamp)) : l.Sorted snapGT :=
  (hne.and hs).imp (fun h => Nat.lt_of_le_of_ne h.2 (fun e => h.1 e.symm))

theorem snap_eq_of_perm_sorted {l1 l2 : List Snapshot} (hp : List.Perm l1 l2)
    (h1 : l1.Sorted snapGE) (h2 : l2.Sorted snapGE)
    (hne : l1.Pairwise (fun a b => a.timestamp ≠ b.timestamp)) : l1 = l2 :=
  List.eq_of_perm_of_sorted hp (snap_sorted_strict h1 hne)
    (snap_sorted_strict h2 ((hp.pairwise_iff fun h => snapTsNe_symm h).mp hne))

theorem sortDesc_eq_of_perm {l1 l2 : List Snapshot} (hp : List.Perm l1 l2)
    (hne : l1.Pairwise (fun a b => a.timestamp ≠ b.timestamp)) :
    sortSnapshotsDesc l1 = sortSnapshotsDesc l2 :=
  snap_eq_of_perm_sorted
    ((snap_perm_sortDesc l1).trans (hp.trans (snap_perm_sortDesc l2).symm))
    (snap_sorted_sortDesc l1) (snap_sorted_sortDesc l2)
    (((snap_perm_sortDesc l1).symm.pairwise_iff fun h => snapTsNe_symm h).mp hne)

theorem runCreates_perm (hashFn : NMap → String) (maxSnapshots : Nat) :
    ∀ (reqs : List CreateReq),
      ((reqs.map (fun r => mkSnapshot hashFn r.config r.description r.id
        r.timestamp)).Pairwise (fun a b => a.timestamp < b.timestamp)) →
      List.Perm (runCreates hashFn maxSnapshots reqs)
        ((sortSnapshotsDesc (reqs.map (fun r => mkSnapshot hashFn r.config r.description r.id
          r.timestamp))).take maxSnapshots) := by
  intro reqs
  induction reqs using List.reverseRecOn with
  | nil => intro _; simp [runCreates, sortSnapshotsDesc, List.insertionSort]
  | append_singleton reqs r ih =>
    intro hts
    set f : CreateReq → Snapshot :=
      fun r => mkSnapshot hashFn r.config r.description r.id r.timestamp with hf
    set created : List Snapshot := reqs.map f with hcreated
    set s : Snapshot := f r with hs
    have hmapapp : (reqs ++ [r]).map f = created ++ [s] := by simp [hcreated, hs]
    rw [hmapapp] at hts
    have hparts := List.pairwise_append.mp hts
    have h1 : created.Pairwise (fun a b => a.timestamp < b.timestamp) := hparts.1
    have hmax : ∀ x ∈ created, x.timestamp < s.timestamp := by
      intro x hx
      exact hparts.2.2 x hx s (List.mem_singleton_self s)
    have hne1 : created.Pairwise (fun a b => a.timestamp ≠ b.timestamp) :=
      h1.imp (fun h => Nat.ne_of_lt h)
    have hnecs : (created ++ [s]).Pairwise (fun a b => a.timestamp ≠ b.timestamp) :=
      hts.imp (fun h => Nat.ne_of_lt h)
    have hst := ih h1
    set st : List Snapshot := runCreates hashFn maxSnapshots reqs with hstdef
    -- the fold step
    have hstep : runCreates hashFn maxSnapshots (reqs ++ [r]) =
        pruneOldSnapshots maxSnapshots (st ++ [s]) := by
      simp [runCreates, List.foldl_append, createSnapshot, hstdef, hs, hf]
    -- the target's sorted form
    have hsortapp : sortSnapshotsDesc (created ++ [s]) = s :: sortSnapshotsDesc created := by
      rw [sortDesc_eq_of_perm (List.perm_append_singleton s created) hnecs]
      exact List.insertionSort_cons snapGE
        (fun b hb => Nat.le_of_lt (hmax b hb))
    -- membership of st inside created
    have hstmem : ∀ x ∈ st, x ∈ created := by
      intro x hx
      have : x ∈ (sortSnapshotsDesc created).take maxSnapshots := hst.mem_iff.mp hx
      exact (snap_perm_sortDesc created).mem_iff.mp
        (List.mem_of_mem_take this)
    have hstlt : ∀ x ∈ st, x.timestamp < s.timestamp := fun x hx => hmax x (hstmem x hx)
    have hne_st : st.Pairwise (fun a b => a.timestamp ≠ b.timestamp) := by
      refine (hst.symm.pairwise_iff fun h => snapTsNe_symm h).mp ?_
      exact (((snap_perm_sortDesc created).symm.pairwise_iff
        fun h => snapTsNe_symm h).mp hne1).sublist (List.take_sublist _ _)
    have hlenst : st.length = min maxSnapshots created.length := by
      rw [hst.length_eq, List.length_take, (snap_perm_sortDesc created).length_eq]
    rw [hstep, hmapapp, hsortapp]
    by_cases hlen : (st ++ [s]).length ≤ maxSnapshots
    · -- within the limit: nothing pruned
      rw [pruneOldSnapshots, if_pos hlen]
      have hlen1 : st.length + 1 ≤ maxSnapshots := by
        simpa using hlen
      have hsmall : created.length < maxSnapshots ∧ st.length = created.length := by
        rcases le_or_lt maxSnapshots created.length with hc | hc
        · rw [Nat.min_eq_left hc] at hlenst
          omega
        · rw [Nat.min_eq_right (Nat.le_of_lt hc)] at hlenst
          exact ⟨hc, hlenst⟩
      obtain ⟨m, hm⟩ : ∃ m, maxSnapshots = m + 1 := ⟨maxSnapshots - 1, by omega⟩
      subst hm
      have htake1 : (sortSnapshotsDesc created).take (m + 1) = sortSnapshotsDesc created := by
        apply List.take_of_length_le
        rw [(snap_perm_sortDesc created).length_eq]
        omega
      have htake2 : (sortSnapshotsDesc created).take m = sortSnapshotsDesc created := by
        apply List.take_of_length_le
        rw [(snap_perm_sortDesc created).length_eq]
        omega
      rw [List.take_succ_cons, htake2]
      have hst2 : List.Perm st (sortSnapshotsDesc created) := by
        rw [htake1] at hst
        exact hst
      exact (List.perm_append_singleton s st).trans (hst2.cons s)
    · -- beyond the limit: sort and take
      rw [pruneOldSnapshots, if_neg hlen]
      have hnecss : (st ++ [s]).Pairwise (fun a b => a.timestamp ≠ b.timestamp) := by
        rw [List.pairwise_append]
        exact ⟨hne_st, List.pairwise_singleton _ _,
          fun x hx y hy => by
            rw [List.mem_singleton.mp hy]
            exact Nat.ne_of_lt (hstlt x hx)⟩
      have hsortst : sortSnapshotsDesc (st ++ [s]) =
          s :: sortSnapshotsDesc st := by
        rw [sortDesc_eq_of_perm (List.perm_append_singleton s st) hnecss]
        exact List.insertionSort_cons snapGE (fun b hb => Nat.le_of_lt (hstlt b hb))
      have hsortst2 : sortSnapshotsDesc st = (sortSnapshotsDesc created).take maxSnapshots := by
        apply snap_eq_of_perm_sorted
        · exact (snap_perm_sortDesc st).trans hst
        · exact snap_sorted_sortDesc st
        · exact (snap_sorted_sortDesc created).sublist (List.take_sublist _ _)
        · exact ((snap_perm_sortDesc st).symm.pairwise_iff
            fun h => snapTsNe_symm h).mp hne_st
      rw [hsortst, hsortst2]
      cases maxSnapshots with
      | zero => simp
      | succ m =>
        rw [List.take_succ_cons, List.take_succ_cons, List.take_take]
        simp [Nat.min_def]

/-- C6: after any sequence of `create_snapshot` calls on a fresh manager with
retention limit `max_snapshots` (timestamps strictly increasing, as
successive `utcnow()` stamps are), `list_snapshots()` is exactly the
`max_snapshots` most recent snapshots newest-first, and in particular never
longer than `max_snapshots`. -/
theorem c6_pruning_bound (hashFn : NMap → String) (maxSnapshots : Nat)
    (reqs : List CreateReq)
    (hts : ((reqs.map (fun r => mkSnapshot hashFn r.config r.description r.id
      r.timestamp)).Pairwise (fun a b => a.timestamp < b.timestamp))) :
    listSnapshots (runCreates hashFn maxSnapshots reqs) none =
      (sortSnapshotsDesc (reqs.map (fun r => mkSnapshot hashFn r.config r.description r.id
        r.timestamp))).take maxSnapshots ∧
    (listSnapshots (runCreates hashFn maxSnapshots reqs) none).length ≤ maxSnapshots := by
  have hperm := runCreates_perm hashFn maxSnapshots reqs hts
  have hnec : ((reqs.map (fun r => mkSnapshot hashFn r.config r.description r.id
      r.timestamp)).Pairwise (fun a b => a.timestamp ≠ b.timestamp)) :=
    hts.imp (fun h => Nat.ne_of_lt h)
  have hne_run : (runCreates hashFn maxSnapshots reqs).Pairwise
      (fun a b => a.timestamp ≠ b.timestamp) := by
    refine (hperm.symm.pairwise_iff fun h => snapTsNe_symm h).mp ?_
    exact (((snap_perm_sortDesc _).symm.pairwise_iff
      fun h => snapTsNe_symm h).mp hnec).sublist (List.take_sublist _ _)
  have heq : sortSnapshotsDesc (runCreates hashFn maxSnapshots reqs) =
      (sortSnapshotsDesc (reqs.map (fun r => mkSnapshot hashFn r.config r.description r.id
        r.timestamp))).take maxSnapshots := by
    apply snap_eq_of_perm_sorted ((snap_perm_sortDesc _).trans hperm)
      (snap_sorted_sortDesc _)
      ((snap_sorted_sortDesc _).sublist (List.take_sublist _ _))
    exact ((snap_perm_sortDesc _).symm.pairwise_iff fun h => snapTsNe_symm h).mp hne_run
  refine ⟨heq, ?_⟩
  show (sortSnapshotsDesc (runCreates hashFn maxSnapshots reqs)).length ≤ maxSnapshots
  rw [heq, List.length_take]
  exact Nat.min_le_left _ _

/-- C6 witness: two creates against limit 1 retain exactly the newer
snapshot. -/
theorem c6_witness :
    ((([⟨ConfigNode.root, none, "s1", 1⟩, ⟨ConfigNode.root, none, "s2", 2⟩] :
        List CreateReq).map (fun r => mkSnapshot (fun _ => "h") r.config r.description r.id
        r.timestamp)).Pairwise (fun a b => a.timestamp < b.timestamp)) ∧
    listSnapshots (runCreates (fun _ => "h") 1
        [⟨ConfigNode.root, none, "s1", 1⟩, ⟨ConfigNode.root, none, "s2", 2⟩]) none =
      (sortSnapshotsDesc (([⟨ConfigNode.root, none, "s1", 1⟩,
        ⟨ConfigNode.root, none, "s2", 2⟩] : List CreateReq).map
        (fun r => mkSnapshot (fun _ => "h") r.config r.description r.id
          r.timestamp))).take 1 :=
  ⟨by simp [List.pairwise_cons, mkSnapshot],
    (c6_pruning_bound (fun _ => "h") 1
      [⟨ConfigNode.root, none, "s1", 1⟩, ⟨ConfigNode.root, none, "s2", 2⟩]
      (by simp [List.pairwise_cons, mkSnapshot])).1⟩

/-! ### Backup/restore lemmas (C8) -/

theorem string_ext : ∀ {s t : String}, s.data = t.data → s = t
  | ⟨_⟩, ⟨_⟩, rfl => rfl

theorem heredocWrite_committed (dev : Device) (s : String) :
    (heredocWrite dev s).committed = dev.committed := by
  rw [heredocWrite]
  cases pySplitChar '\n' s <;> rfl

theorem heredocWrite_pending (dev : Device) (s : String) :
    (heredocWrite dev s).pending = dev.pending := by
  rw [heredocWrite]
  cases pySplitChar '\n' s <;> rfl

theorem heredocWrite_inConfig (dev : Device) (s : String) :
    (heredocWrite dev s).inConfig = dev.inConfig := by
  rw [heredocWrite]
  cases pySplitChar '\n' s <;> rfl

/-- Any executor round trip that is not a `configure`/`commit`/`discard`/
`exit` session command and not a `set` command leaves the device's
configuration state (committed, pending, session flag) untouched. -/
theorem devExec_preserves_config (dev : Device) (cmd : String)
    (h1 : cmd ≠ "configure") (h2 : cmd ≠ "commit") (h3 : cmd ≠ "discard")
    (h4 : cmd ≠ "exit") (h5 : pyStartsWith cmd "set " = false) :
    (devExec dev cmd).2.committed = dev.committed ∧
    (devExec dev cmd).2.pending = dev.pending ∧
    (devExec dev cmd).2.inConfig = dev.inConfig := by
  rw [devExec]
  rw [if_neg h1, if_neg h2, if_neg h3, if_neg h4]
  by_cases hsave : cmd = "save"
  · simp [hsave]
  · rw [if_neg hsave, if_neg (by simp [h5])]
    by_cases hshow : cmd = showConfigCmd
    · simp [hshow]
    · rw [if_neg hshow]
      by_cases hver : cmd = showVersionCmd
      · simp [hver]
      · rw [if_neg hver]
        by_cases hEOF : pyStartsWith cmd hdEOFPrefix = true
        · simp [hEOF, heredocWrite_committed, heredocWrite_pending, heredocWrite_inConfig]
        · rw [if_neg hEOF]
          by_cases hMETA : pyStartsWith cmd hdMETAPrefix = true
          · simp [hMETA, heredocWrite_committed, heredocWrite_pending, heredocWrite_inConfig]
          · rw [if_neg hMETA]
            by_cases hcat : pyStartsWith cmd "cat " = true
            · simp [hcat]
            · rw [if_neg hcat]
              by_cases hwc : pyStartsWith cmd "wc -c " = true
              · simp [hwc]
              · rw [if_neg hwc]
                exact ⟨rfl, rfl, rfl⟩

/-- The commands `create_snapshot` issues all read like `cat ...`, `wc -...`
or `/opt/...`; any command whose first four characters are one of those
prefixes preserves the configuration state. -/
theorem devExec_preserves_config_of_take4 (dev : Device) (cmd : String)
    (h : cmd.data.take 4 = "cat ".data ∨ cmd.data.take 4 = "wc -".data ∨
      cmd.data.take 4 = "/opt".data) :
    (devExec dev cmd).2.committed = dev.committed ∧
    (devExec dev cmd).2.pending = dev.pending ∧
    (devExec dev cmd).2.inConfig = dev.inConfig := by
  apply devExec_preserves_config
  · intro e; rw [e] at h; rcases h with h | h | h <;> exact absurd h (by decide)
  · intro e; rw [e] at h; rcases h with h | h | h <;> exact absurd h (by decide)
  · intro e; rw [e] at h; rcases h with h | h | h <;> exact absurd h (by decide)
  · intro e; rw [e] at h; rcases h with h | h | h <;> exact absurd h (by decide)
  · show decide (cmd.data.take ("set " : String).data.length = ("set " : String).data) = false
    rcases h with h | h | h <;>
      · rw [show ("set " : String).data.length = 4 from rfl, h]
        decide

theorem take4_append {c0 : String} (rest : String) (h4 : 4 ≤ c0.data.length) :
    (c0 ++ rest).data.take 4 = c0.data.take 4 := by
  rw [String.data_append, List.take_append_of_le_length h4]

theorem getVersionInfo_preserves (dev : Device) :
    (getVersionInfo dev).2.committed = dev.committed ∧
    (getVersionInfo dev).2.pending = dev.pending ∧
    (getVersionInfo dev).2.inConfig = dev.inConfig := by
  have e := devExec_preserves_config_of_take4 dev showVersionCmd (by decide)
  simpa [getVersionInfo] using e

theorem devExec_showConfig_preserves (d : Device) :
    (devExec d showConfigCmd).2.committed = d.committed ∧
    (devExec d showConfigCmd).2.pending = d.pending ∧
    (devExec d showConfigCmd).2.inConfig = d.inConfig :=
  devExec_preserves_config_of_take4 d showConfigCmd (by decide)

theorem devExec_hdEOF_preserves (d : Device) (x : String) :
    (devExec d (hdEOFPrefix ++ x)).2.committed = d.committed ∧
    (devExec d (hdEOFPrefix ++ x)).2.pending = d.pending ∧
    (devExec d (hdEOFPrefix ++ x)).2.inConfig = d.inConfig :=
  devExec_preserves_config_of_take4 d (hdEOFPrefix ++ x)
    (Or.inl (by rw [take4_append _ (by decide)]; decide))

theorem devExec_hdMETA_preserves (d : Device) (x : String) :
    (devExec d (hdMETAPrefix ++ x)).2.committed = d.committed ∧
    (devExec d (hdMETAPrefix ++ x)).2.pending = d.pending ∧
    (devExec d (hdMETAPrefix ++ x)).2.inConfig = d.inConfig :=
  devExec_preserves_config_of_take4 d (hdMETAPrefix ++ x)
    (Or.inl (by rw [take4_append _ (by decide)]; decide))

theorem devExec_wc_preserves (d : Device) (x : String) :
    (devExec d ("wc -c " ++ x)).2.committed = d.committed ∧
    (devExec d ("wc -c " ++ x)).2.pending = d.pending ∧
    (devExec d ("wc -c " ++ x)).2.inConfig = d.inConfig :=
  devExec_preserves_config_of_take4 d ("wc -c " ++ x)
    (Or.inr (Or.inl (by rw [take4_append _ (by decide)]; decide)))

theorem createBackupSnapshot_preserves (hashFn : String → String)
    (jsonDumpsCfg : List String → String) (metaJson : BSnapshot → String)
    (backupDir : String) (dev : Device) (name description : String)
    (format : BackupFormat) (snapshotId : String) (timestamp : Nat) :
    (createBackupSnapshot hashFn jsonDumpsCfg metaJson backupDir dev name description
      format snapshotId timestamp).2.committed = dev.committed ∧
    (createBackupSnapshot hashFn jsonDumpsCfg metaJson backupDir dev name description
      format snapshotId timestamp).2.pending = dev.pending ∧
    (createBackupSnapshot hashFn jsonDumpsCfg metaJson backupDir dev name description
      format snapshotId timestamp).2.inConfig = dev.inConfig := by
  refine ⟨?_, ?_, ?_⟩ <;>
    simp only [createBackupSnapshot, devExec_hdMETA_preserves, devExec_wc_preserves,
      devExec_hdEOF_preserves, getVersionInfo_preserves, devExec_showConfig_preserves]

/-- A `cat` read of a snapshot file dispatches to the file-read branch of the
executor: it returns the stored content (empty when absent) and leaves the
device untouched. -/
theorem devExec_cat_snap (dev : Device) (rest : String) :
    devExec dev ("cat /var/lib/vyos-webui/backups/snapshots/" ++ rest) =
      ({ stdout := (alGet dev.files
          ("/var/lib/vyos-webui/backups/snapshots/" ++ rest)).getD "" }, dev) := by
  have h4 : ("cat /var/lib/vyos-webui/backups/snapshots/" ++ rest).data.take 4 =
      ("cat " : String).data := by
    rw [take4_append _ (by decide)]
    decide
  have h15 : ("cat /var/lib/vyos-webui/backups/snapshots/" ++ rest).data.take 15 =
      ("cat /var/lib/vy" : String).data := by
    rw [String.data_append, List.take_append_of_le_length (by decide)]
    decide
  rw [devExec]
  rw [if_neg (fun e => absurd (e ▸ h4) (by decide)),
    if_neg (fun e => absurd (e ▸ h4) (by decide)),
    if_neg (fun e => absurd (e ▸ h4) (by decide)),
    if_neg (fun e => absurd (e ▸ h4) (by decide)),
    if_neg (fun e => absurd (e ▸ h4) (by decide))]
  rw [if_neg (by
    show ¬pyStartsWith _ "set " = true
    rw [pyStartsWith, show ("set " : String).data.length = 4 from rfl, h4]
    decide)]
  rw [if_neg (fun e => absurd (e ▸ h4) (by decide)),
    if_neg (fun e => absurd (e ▸ h4) (by decide))]
  rw [if_neg (by
    show ¬pyStartsWith _ hdEOFPrefix = true
    rw [pyStartsWith, show hdEOFPrefix.data.length = 15 from rfl, h15]
    decide)]
  rw [if_neg (by
    show ¬pyStartsWith _ hdMETAPrefix = true
    rw [pyStartsWith, show hdMETAPrefix.data.length = 20 from rfl]
    rw [String.data_append, List.take_append_of_le_length (by decide)]
    decide)]
  rw [if_pos (by
    show pyStartsWith _ "cat " = true
    rw [pyStartsWith, show ("cat " : String).data.length = 4 from rfl, h4]
    decide)]
  have hdrop : (⟨("cat /var/lib/vyos-webui/backups/snapshots/" ++ rest).data.drop 4⟩ :
      String) = "/var/lib/vyos-webui/backups/snapshots/" ++ rest := by
    apply string_ext
    show (("cat /var/lib/vyos-webui/backups/snapshots/" ++ rest).data.drop 4) = _
    rw [String.data_append, List.drop_append_of_le_length (by decide), String.data_append]
    rfl
  rw [hdrop]

/-- C8: on an existing, readable snapshot with `dry_run = False`, the restore
never reaches the configure/apply/commit sequence: `create_snapshot` runs (as
the awaited call's evaluation), then the `await` on its synchronous result
raises `TypeError`, so the returned dict is a failure carrying the
`TypeError` text (naming no command line), and the device's committed and
pending configuration and session flag are exactly as before. -/
theorem c8_restore_await_failure (hashFn : String → String)
    (jsonDumpsCfg : List String → String) (metaJson : BSnapshot → String)
    (getSnap : Device → String → Option BSnapshot) (preRestoreId : String)
    (preRestoreTs : Nat) (dev : Device) (snapshotId : String) (snap : BSnapshot)
    (hsnap : getSnap dev snapshotId = some snap)
    (hread : (alGet dev.files ("/var/lib/vyos-webui/backups/snapshots/" ++
      (snapshotId ++ "." ++ snap.format.value))).getD "" ≠ "") :
    (restoreFromSnapshot hashFn jsonDumpsCfg metaJson "/var/lib/vyos-webui/backups"
      getSnap preRestoreId preRestoreTs dev snapshotId false).1.success = false ∧
    (restoreFromSnapshot hashFn jsonDumpsCfg metaJson "/var/lib/vyos-webui/backups"
      getSnap preRestoreId preRestoreTs dev snapshotId false).1.message =
      awaitTypeErrorMsg ∧
    pyStartsWith (restoreFromSnapshot hashFn jsonDumpsCfg metaJson
      "/var/lib/vyos-webui/backups" getSnap preRestoreId preRestoreTs dev snapshotId
      false).1.message "Failed to apply command:" = false ∧
    (restoreFromSnapshot hashFn jsonDumpsCfg metaJson "/var/lib/vyos-webui/backups"
      getSnap preRestoreId preRestoreTs dev snapshotId false).2.committed =
      dev.committed ∧
    (restoreFromSnapshot hashFn jsonDumpsCfg metaJson "/var/lib/vyos-webui/backups"
      getSnap preRestoreId preRestoreTs dev snapshotId false).2.pending = dev.pending ∧
    (restoreFromSnapshot hashFn jsonDumpsCfg metaJson "/var/lib/vyos-webui/backups"
      getSnap preRestoreId preRestoreTs dev snapshotId false).2.inConfig =
      dev.inConfig := by
  have hcmdeq : ("cat " ++ ("/var/lib/vyos-webui/backups" ++ "/snapshots/" ++ snapshotId ++
      "." ++ snap.format.value)) =
      ("cat /var/lib/vyos-webui/backups/snapshots/" ++
        (snapshotId ++ "." ++ snap.format.value)) := by
    apply string_ext
    simp [String.data_append]
  have hrestore : restoreFromSnapshot hashFn jsonDumpsCfg metaJson
      "/var/lib/vyos-webui/backups" getSnap preRestoreId preRestoreTs dev snapshotId
      false =
      ({ success := false, message := awaitTypeErrorMsg },
        (createBackupSnapshot hashFn jsonDumpsCfg metaJson "/var/lib/vyos-webui/backups"
          dev ("pre-restore-" ++ snapshotId)
          ("Automatic backup before restoring " ++ snapshotId) .vyos
          preRestoreId preRestoreTs).2) := by
    rw [restoreFromSnapshot, hsnap]
    simp only [Bool.false_eq_true, if_false, ite_false, hcmdeq, devExec_cat_snap]
    rw [if_neg hread]
  rw [hrestore]
  have hpres := createBackupSnapshot_preserves hashFn jsonDumpsCfg metaJson
    "/var/lib/vyos-webui/backups" dev ("pre-restore-" ++ snapshotId)
    ("Automatic backup before restoring " ++ snapshotId) .vyos preRestoreId preRestoreTs
  refine ⟨rfl, rfl, ?_, hpres.1, hpres.2.1, hpres.2.2⟩
  show pyStartsWith awaitTypeErrorMsg "Failed to apply command:" = false
  decide

/-- C8 witness: a concrete device with a stored snapshot; the restore fails
with the `TypeError` text and leaves the committed configuration intact. -/
theorem c8_witness :
    ((fun (_ : Device) (i : String) =>
        if i = "abc" then some (⟨"abc", "n", "", 0, .vyos, 0, "", .completed, []⟩ : BSnapshot)
        else none) :
      Device → String → Option BSnapshot)
      (⟨["set x y"], [], false,
        [("/var/lib/vyos-webui/backups/snapshots/abc.vyos", "x y")],
        fun _ => true, ""⟩ : Device) "abc" =
      some (⟨"abc", "n", "", 0, .vyos, 0, "", .completed, []⟩ : BSnapshot) ∧
    (restoreFromSnapshot (fun _ => "h") (fun _ => "j") (fun _ => "m")
      "/var/lib/vyos-webui/backups"
      (fun _ i => if i = "abc" then
        some (⟨"abc", "n", "", 0, .vyos, 0, "", .completed, []⟩ : BSnapshot) else none)
      "pid" 1
      (⟨["set x y"], [], false,
        [("/var/lib/vyos-webui/backups/snapshots/abc.vyos", "x y")],
        fun _ => true, ""⟩ : Device) "abc" false).2.committed = ["set x y"] :=
  ⟨rfl,
    (c8_restore_await_failure (fun _ => "h") (fun _ => "j") (fun _ => "m")
      (fun _ i => if i = "abc" then
        some (⟨"abc", "n", "", 0, .vyos, 0, "", .completed, []⟩ : BSnapshot) else none)
      "pid" 1
      (⟨["set x y"], [], false,
        [("/var/lib/vyos-webui/backups/snapshots/abc.vyos", "x y")],
        fun _ => true, ""⟩ : Device) "abc"
      (⟨"abc", "n", "", 0, .vyos, 0, "", .completed, []⟩ : BSnapshot) rfl
      (by decide)).2.2.2.1⟩

/-- C3 amended witness: a concrete two-level map round-trips. -/
theorem c3_amended_witness :
    goodMap (NMap.cons "a" (NVal.str "1")
        (NMap.cons "b" (NVal.dict (NMap.cons "c" (NVal.str "2") NMap.nil)) NMap.nil)) = true ∧
    nodupMap (NMap.cons "a" (NVal.str "1")
        (NMap.cons "b" (NVal.dict (NMap.cons "c" (NVal.str "2") NMap.nil)) NMap.nil)) = true ∧
    (ConfigNode.fromDict (NMap.cons "a" (NVal.str "1")
        (NMap.cons "b" (NVal.dict (NMap.cons "c" (NVal.str "2") NMap.nil)) NMap.nil))).toDict =
      NMap.cons "a" (NVal.str "1")
        (NMap.cons "b" (NVal.dict (NMap.cons "c" (NVal.str "2") NMap.nil)) NMap.nil) :=
  ⟨rfl, rfl, c3_amended _ rfl rfl⟩

end VyosWebui
